import Mathlib

/-!
Verification of the email synchronization engine of the
lucidgrowth-email-manager repository: a shallow embedding of the sync
orchestrator (`EmailSyncService`), the IMAP fetcher and connection pool
(`ImapService`) and the message analyzer (`EmailAnalyticsService`),
together with theorems settling the specification's claims about them.

Mongo collections with a unique index (`SyncStatusSchema.index({accountId:1},
{unique:true})`, `EmailSchema.index({accountId:1, messageId:1}, {unique:true})`)
are modelled as association lists updated in place; JavaScript `Map`s
(the job registry, the connection pool) likewise.  Timestamps are naturals,
durations are integers.  Network and database outcomes that the code observes
(connect success, probe results, per-message save success, per-message parse
success) are explicit inputs of the model.
-/

namespace LucidGrowth

/-! ### Association-list helpers (keyed collections and JS maps) -/

def lookupKey {β : Type} (l : List (String × β)) (k : String) : Option β :=
  (l.find? (fun p => p.1 == k)).map (·.2)

def setKey {β : Type} (l : List (String × β)) (k : String) (v : β) : List (String × β) :=
  match l with
  | [] => [(k, v)]
  | p :: rest => if p.1 == k then (k, v) :: rest else p :: setKey rest k v

def eraseKey {β : Type} (l : List (String × β)) (k : String) : List (String × β) :=
  match l with
  | [] => []
  | p :: rest => if p.1 == k then rest else p :: eraseKey rest k

/-! ### Character-list string helpers

The JavaScript string operations the source uses (`toLowerCase`, `split`,
regex tests made of literal alternatives) are modelled on `List Char` so
that every definition is kernel-executable. -/

def startsWithChars : List Char → List Char → Bool
  | _, [] => true
  | [], _ :: _ => false
  | c :: cs, d :: ds => (c = d) && startsWithChars cs ds

def hasSubChars : List Char → List Char → Bool
  | [], needle => needle.isEmpty
  | c :: rest, needle => startsWithChars (c :: rest) needle || hasSubChars rest needle

/-- JS `String.prototype.split` with a single-character separator. -/
def splitChar (sep : Char) : List Char → List (List Char)
  | [] => [[]]
  | c :: rest =>
    let r := splitChar sep rest
    if c = sep then [] :: r
    else
      match r with
      | h :: t => (c :: h) :: t
      | [] => [[c]]

def lowerChars (cs : List Char) : List Char := cs.map Char.toLower

/-! ### Data model (the Mongoose schemas) -/

inductive SyncState where
  | IDLE
  | RUNNING
  | PAUSED
  | COMPLETED
  | ERROR
  deriving DecidableEq, Repr

structure FolderProgress where
  total : Nat
  processed : Nat
  failed : Nat
  deriving DecidableEq, Repr

/-- A `SyncStatus` document (sync-status.schema.ts); one per account,
unique on `accountId`. -/
structure SyncStatus where
  status : SyncState
  totalEmails : Nat
  processedEmails : Nat
  failedEmails : Nat
  currentFolder : Option String
  lastProcessedMessageId : Option String
  startedAt : Option Nat
  completedAt : Option Nat
  errorMessage : Option String
  folderProgress : List (String × FolderProgress)
  syncSpeed : Nat
  deriving DecidableEq, Repr

/-- The schema defaults used when an upsert inserts a fresh document. -/
def SyncStatus.fresh : SyncStatus :=
  { status := .IDLE, totalEmails := 0, processedEmails := 0, failedEmails := 0,
    currentFolder := none, lastProcessedMessageId := none, startedAt := none,
    completedAt := none, errorMessage := none, folderProgress := [], syncSpeed := 0 }

/-- An `EmailAccount` document, restricted to the fields the sync engine
reads and writes. -/
structure EmailAccount where
  id : String
  email : String
  imapHost : String
  isActive : Bool
  isConnected : Bool
  lastSyncAt : Option Nat
  syncedEmails : Nat
  deriving DecidableEq, Repr

/-- The value `startSync`/`resumeSync` store in the job registry: the promise
returned by calling the async `performSync`.  A JavaScript promise exposes no
`cancel` method, which the model records in `hasCancelMethod`. -/
structure JobHandle where
  hasCancelMethod : Bool
  deriving DecidableEq, Repr

def performSyncHandle : JobHandle := { hasCancelMethod := false }

/-- Invoking `.cancel()` on a registered handle: a TypeError is thrown when
the method does not exist. -/
def callCancel (h : JobHandle) : Except String Unit :=
  if h.hasCancelMethod then .ok () else .error "syncJob.cancel is not a function"

/-! ### Upstream mailbox content and raw fetched records -/

/-- A message as it sits in an upstream IMAP folder: the attributes and parsed
envelope fields the fetch callback of `getEmails` extracts.  `messageId` is
the resolved `attrs['x-gm-msgid'] || attrs.uid` value.  `parseOk` is whether
`simpleParser` succeeds on the body (on failure the message is logged and
skipped).  `saveOk` is whether the later analyze/build/save steps of
`processEmailBatch` succeed for this message (their failure is caught
per message and counted as one failure). -/
structure ServerMessage where
  messageId : String
  fromHeader : Option String
  date : Option Int
  parseOk : Bool
  saveOk : Bool
  deriving DecidableEq, Repr

/-- The `emailData` object `getEmails` pushes: note the object literal carries
no `sendingDomain` property, which the model records as a field that
`getEmails` always leaves `none`. -/
structure RawEmail where
  messageId : String
  fromHeader : Option String
  sendingDomain : Option String
  date : Option Int
  receivedDate : Option Int
  saveOk : Bool
  deriving DecidableEq, Repr

/-- One upstream folder as the sync run sees it: its name, whether opening and
fetching it succeeds (a folder-level failure is caught per folder), and its
messages in 1-based sequence order. -/
structure SyncFolder where
  name : String
  fetchOk : Bool
  msgs : List ServerMessage
  deriving DecidableEq, Repr

/-- The persistent state the sync service operates on: the account store, the
per-account `SyncStatus` documents, the in-memory job registry and the stored
messages abstracted to their `(accountId, messageId)` dedup key. -/
structure ServiceState where
  accounts : List EmailAccount
  syncStatuses : List (String × SyncStatus)
  syncJobs : List (String × JobHandle)
  emails : List (String × String)
  deriving DecidableEq, Repr

def findAccount (s : ServiceState) (accountId : String) : Option EmailAccount :=
  s.accounts.find? (fun a => a.id == accountId)

/-! ### Connection pool (`ImapService`)

`connectionPool` is the `Map<string, Imap>` keyed by ``email-imapHost``;
`maxConnections` is the value read from `MAX_CONCURRENT_CONNECTIONS`.
Session internals are abstracted to their `state` flag, the only part the
pool logic inspects. -/

inductive ConnState where
  | authenticated
  | disconnected
  deriving DecidableEq, Repr

structure ImapPoolState where
  maxConnections : Nat
  connectionPool : List (String × ConnState)
  deriving DecidableEq, Repr

def connectionKey (email imapHost : String) : String := email ++ "-" ++ imapHost

/-- Model of `createConnection`: return the cached session when it is
authenticated; otherwise connect (`connectOk` is the upstream outcome) — on
ready the session is cached under the key, on error any entry for the key is
deleted and the error surfaces.  The source performs no capacity check. -/
def createConnection (p : ImapPoolState) (email imapHost : String) (connectOk : Bool) :
    ImapPoolState × Except String Unit :=
  let key := connectionKey email imapHost
  match lookupKey p.connectionPool key with
  | some .authenticated => (p, .ok ())
  | _ =>
    if connectOk then
      ({ p with connectionPool := setKey p.connectionPool key .authenticated }, .ok ())
    else
      ({ p with connectionPool := eraseKey p.connectionPool key }, .error "connection-error")

/-- Model of `getConnection`: reuse an authenticated cached session, else
defer to `createConnection`. -/
def getConnection (p : ImapPoolState) (email imapHost : String) (connectOk : Bool) :
    ImapPoolState × Except String Unit :=
  match lookupKey p.connectionPool (connectionKey email imapHost) with
  | some .authenticated => (p, .ok ())
  | _ => createConnection p email imapHost connectOk

/-! ### Mailbox fetcher (`getEmails`) -/

/-- The `start` of the fetched sequence range:
`Math.max(1, totalMessages - offset - limit + 1)`. -/
def seqStart (total limit offset : Nat) : Int :=
  max 1 ((total : Int) - offset - limit + 1)

/-- The `end` of the fetched sequence range: `totalMessages - offset`. -/
def seqEnd (total offset : Nat) : Int := (total : Int) - offset

/-- The messages of the folder whose 1-based sequence number lies in
`[seqStart, seqEnd]`; the empty list when the range is empty
(`start > end` resolves `[]`). -/
def seqSlice {α : Type} (msgs : List α) (limit offset : Nat) : List α :=
  let s := seqStart msgs.length limit offset
  let e := seqEnd msgs.length offset
  if s > e then [] else (msgs.drop (s.toNat - 1)).take (e - s + 1).toNat

/-- The `emailData` object the fetch callback pushes for one parsed message;
`receivedDate` is `new Date()` at fetch time, and no `sendingDomain`
property is set. -/
def toRawEmail (now : Int) (m : ServerMessage) : RawEmail :=
  { messageId := m.messageId, fromHeader := m.fromHeader, sendingDomain := none,
    date := m.date, receivedDate := some now, saveOk := m.saveOk }

/-- Model of `getEmails`: open the folder read-only, resolve the sequence
range against the folder's total message count, fetch it, and push each
successfully parsed message (parse failures are logged and skipped). -/
def getEmails (msgs : List ServerMessage) (limit offset : Nat) (now : Int) : List RawEmail :=
  ((seqSlice msgs limit offset).filter (·.parseOk)).map (toRawEmail now)

/-- The second argument of the `openBox(folder, true, ...)` call in
`getEmails`: the folder is opened read-only. -/
def getEmailsOpenReadOnly : Bool := true

/-! ### Message analyzer (`EmailAnalyticsService`) -/

structure CertDetails where
  issuer : Option String
  subject : Option String
  validFrom : Option String
  validTo : Option String
  fingerprint : Option String
  deriving DecidableEq, Repr

structure TlsOutcome where
  supportsTLS : Bool
  hasValidCertificate : Bool
  certificateDetails : Option CertDetails
  deriving DecidableEq, Repr

/-- Outcomes of the two live probes, indexed by the target server.  In the
source both probes resolve on every path (error and timeout handlers resolve
the negative result rather than rejecting), so they are total functions of
the network environment. -/
structure Network where
  tls : String → TlsOutcome
  openRelay : String → Bool

structure Analysis where
  sendingDomain : Option String
  espType : String
  espName : String
  sendingServer : Option String
  isOpenRelay : Bool
  supportsTLS : Bool
  hasValidCertificate : Bool
  timeDelta : Option Int
  certificateDetails : Option CertDetails
  deriving DecidableEq, Repr

/-- The analysis object as initialised at the top of `analyzeEmail`, which is
also the value returned from its catch block. -/
def defaultAnalysis : Analysis :=
  { sendingDomain := none, espType := "Unknown", espName := "Unknown",
    sendingServer := none, isOpenRelay := false, supportsTLS := false,
    hasValidCertificate := false, timeDelta := none, certificateDetails := none }

/-- The `espPatterns` table: each regex is an unanchored alternation of
literal domain names, so `pattern.test(domain)` is a substring test against
each alternative. -/
def espPatterns : List (String × List String) :=
  [("Gmail", ["googlemail.com", "gmail.com", "google.com"]),
   ("Outlook", ["outlook.com", "hotmail.com", "live.com", "msn.com"]),
   ("Yahoo", ["yahoo.com", "yahoo.co.uk", "ymail.com"]),
   ("SendGrid", ["sendgrid.net", "sendgrid.com"]),
   ("Mailgun", ["mailgun.net", "mailgun.com"]),
   ("Amazon SES", ["amazonaws.com", "ses.amazonaws.com"]),
   ("Mandrill", ["mandrillapp.com"]),
   ("Postmark", ["postmarkapp.com"]),
   ("Mailchimp", ["mailchimp.com", "list-manage.com"]),
   ("Constant Contact", ["constantcontact.com"]),
   ("AWeber", ["aweber.com"]),
   ("GetResponse", ["getresponse.com"]),
   ("Campaign Monitor", ["campaignmonitor.com"]),
   ("ConvertKit", ["convertkit.com"]),
   ("ActiveCampaign", ["activecampaign.com"]),
   ("HubSpot", ["hubspot.com"]),
   ("Pardot", ["pardot.com"]),
   ("Marketo", ["marketo.com"]),
   ("Salesforce", ["salesforce.com"]),
   ("Zendesk", ["zendesk.com"])]

/-- The static `categories` lookup of `categorizeESP`; a provider absent from
it maps to "Other". -/
def espCategories : List (String × String) :=
  [("Gmail", "Webmail"), ("Outlook", "Webmail"), ("Yahoo", "Webmail"),
   ("SendGrid", "Transactional"), ("Mailgun", "Transactional"),
   ("Amazon SES", "Transactional"), ("Mandrill", "Transactional"),
   ("Postmark", "Transactional"), ("Mailchimp", "Marketing"),
   ("Constant Contact", "Marketing"), ("AWeber", "Marketing"),
   ("GetResponse", "Marketing"), ("Campaign Monitor", "Marketing"),
   ("ConvertKit", "Marketing"), ("ActiveCampaign", "Marketing"),
   ("HubSpot", "Marketing"), ("Pardot", "Marketing"), ("Marketo", "Marketing"),
   ("Salesforce", "Marketing"), ("Zendesk", "Support")]

def categorizeESP (espName : String) : String :=
  (lookupKey espCategories espName).getD "Other"

/-- Model of `detectESP`: lower-case the domain, take the first pattern whose
alternation matches, and categorize it; no match yields Custom /
Custom/Unknown. -/
def detectESP (domain : List Char) : String × String :=
  let lowerDomain := lowerChars domain
  match espPatterns.find? (fun p => p.2.any (fun lit => hasSubChars lowerDomain lit.data)) with
  | some p => (categorizeESP p.1, p.1)
  | none => ("Custom", "Custom/Unknown")

/-! The `from`-header match.  The source runs
`emailData.from.match(/<(.+)>|(.+)/)` and projects `emailMatch[1] ||
emailMatch[2]`.  JS `.` matches every character except a line terminator;
scanning left to right, at each position the `<(.+)>` alternative is
preferred and is greedy, otherwise `(.+)` captures the maximal
line-terminator-free run.  When the regex does not match at all (the string
is empty or all line terminators), `emailMatch` is `null` and the subsequent
index access throws. -/

def dotMatch (c : Char) : Bool :=
  !(c = '\n' || c = '\r' || c = '\u2028' || c = '\u2029')

def takeDotRun (cs : List Char) : List Char := cs.takeWhile dotMatch

/-- The greedy `<(.+)>` attempt immediately after an opening `<`: capture up
to the last `>` of the line-terminator-free run, provided the capture is
nonempty. -/
def angleCapture (rest : List Char) : Option (List Char) :=
  let run := takeDotRun rest
  match run.reverse.findIdx? (fun c => c = '>') with
  | none => none
  | some r =>
    let j := run.length - 1 - r
    if j = 0 then none else some (run.take j)

def matchAddressChars : List Char → Option (List Char)
  | [] => none
  | c :: rest =>
    if c = '<' then
      match angleCapture rest with
      | some cap => some cap
      | none => some (takeDotRun (c :: rest))
    else if dotMatch c then some (takeDotRun (c :: rest))
    else matchAddressChars rest

/-- JS `emailAddress.split('@')[1]`: the segment between the first and second
`@`, absent when the address has no `@`. -/
def domainAfterAt (addr : List Char) : Option (List Char) :=
  (splitChar '@' addr).get? 1

/-- Model of `extractSendingServer`: it reads `emailData.sendingDomain` — a
property the fetcher's raw records do not carry — not the domain the caller
extracted into `analysis.sendingDomain`; when that property is truthy it
returns the placeholder `mail.<domain>` and otherwise `null`. -/
def extractSendingServer (e : RawEmail) : Option String :=
  match e.sendingDomain with
  | some d => if d = "" then none else some (String.mk ("mail.".data ++ d.data))
  | none => none

/-- The body of `analyzeEmail`'s try block.  The only failure point is the
index access on the result of the `from` match (`null[1]` throws); every
other step is total. -/
def analyzeEmailBody (net : Network) (e : RawEmail) : Except String Analysis := do
  let a0 := defaultAnalysis
  let a1 ←
    match e.fromHeader with
    | some f =>
      if f = "" then pure a0
      else
        match matchAddressChars f.data with
        | none => Except.error "TypeError: cannot read properties of null"
        | some addr =>
          if addr.isEmpty then pure a0
          else pure { a0 with sendingDomain := (domainAfterAt addr).map String.mk }
    | none => pure a0
  let a2 :=
    match a1.sendingDomain with
    | some d =>
      if d = "" then a1
      else
        let esp := detectESP d.data
        { a1 with espType := esp.1, espName := esp.2 }
    | none => a1
  let a3 := { a2 with sendingServer := extractSendingServer e }
  let a4 :=
    match e.date, e.receivedDate with
    | some sent, some received => { a3 with timeDelta := some (received - sent) }
    | _, _ => a3
  let a5 :=
    match a4.sendingServer with
    | some srv =>
      let t := net.tls srv
      { a4 with
        supportsTLS := t.supportsTLS,
        hasValidCertificate := t.hasValidCertificate,
        certificateDetails := t.certificateDetails,
        isOpenRelay := net.openRelay srv }
    | none => a4
  pure a5

/-- Model of `analyzeEmail`: the try body, with the catch block returning the
all-unknown/false analysis on any failure. -/
def analyzeEmail (net : Network) (e : RawEmail) : Analysis :=
  match analyzeEmailBody net e with
  | .ok a => a
  | .error _ => defaultAnalysis

/-! ### Sync orchestrator (`EmailSyncService`)

Each operation takes and returns the whole `ServiceState` next to its
`Except` result, so that writes persisted before a thrown error remain
visible (the service methods catch, log and rethrow). -/

/-- Model of `startSync`: reject when the account is missing or a RUNNING
progress record exists; otherwise upsert the record to a fresh RUNNING state
(resetting start time, current folder, resume cursor and error message but
keeping the counters) and register the background job's promise. -/
def startSync (s : ServiceState) (accountId : String) (now : Nat) :
    ServiceState × Except String SyncStatus :=
  match findAccount s accountId with
  | none => (s, .error "Email account not found")
  | some _ =>
    let existing := lookupKey s.syncStatuses accountId
    if existing.map (·.status) = some .RUNNING then
      (s, .error "Synchronization is already running for this account")
    else
      let st1 :=
        { existing.getD SyncStatus.fresh with
          status := .RUNNING,
          startedAt := some now,
          currentFolder := none,
          lastProcessedMessageId := none,
          errorMessage := none }
      ({ s with
         syncStatuses := setKey s.syncStatuses accountId st1,
         syncJobs := setKey s.syncJobs accountId performSyncHandle }, .ok st1)

/-- Model of `pauseSync`: require an existing RUNNING record, persist PAUSED,
then call `.cancel()` on the registered job handle — on the bare promise this
throws, skipping the registry delete, and the catch rethrows after the
PAUSED write has already been saved. -/
def pauseSync (s : ServiceState) (accountId : String) :
    ServiceState × Except String SyncStatus :=
  match lookupKey s.syncStatuses accountId with
  | none => (s, .error "Sync status not found")
  | some st =>
    if st.status ≠ .RUNNING then (s, .error "No active synchronization to pause")
    else
      let st1 := { st with status := .PAUSED }
      let s1 := { s with syncStatuses := setKey s.syncStatuses accountId st1 }
      match lookupKey s1.syncJobs accountId with
      | some h =>
        match callCancel h with
        | .ok _ => ({ s1 with syncJobs := eraseKey s1.syncJobs accountId }, .ok st1)
        | .error e => (s1, .error e)
      | none => (s1, .ok st1)

/-- Model of `resumeSync`: require an existing PAUSED record and an existing
account, persist RUNNING and register a new `performSync` job (launched with
batchSize 50, maxEmails 0, no folder filter and the stored cursor as the
unused `resumeFrom`). -/
def resumeSync (s : ServiceState) (accountId : String) :
    ServiceState × Except String SyncStatus :=
  match lookupKey s.syncStatuses accountId with
  | none => (s, .error "Sync status not found")
  | some st =>
    if st.status ≠ .PAUSED then (s, .error "No paused synchronization to resume")
    else
      match findAccount s accountId with
      | none => (s, .error "Email account not found")
      | some _ =>
        let st1 := { st with status := .RUNNING }
        ({ s with
           syncStatuses := setKey s.syncStatuses accountId st1,
           syncJobs := setKey s.syncJobs accountId performSyncHandle }, .ok st1)

/-- Model of `stopSync`: require an existing record (otherwise NotFound),
persist IDLE with a completion timestamp — the resume cursor is left in
place — then call `.cancel()` on any registered handle, which throws on the
bare promise after the IDLE write has been saved. -/
def stopSync (s : ServiceState) (accountId : String) (now : Nat) :
    ServiceState × Except String SyncStatus :=
  match lookupKey s.syncStatuses accountId with
  | none => (s, .error "Sync status not found")
  | some st =>
    let st1 := { st with status := .IDLE, completedAt := some now }
    let s1 := { s with syncStatuses := setKey s.syncStatuses accountId st1 }
    match lookupKey s1.syncJobs accountId with
    | some h =>
      match callCancel h with
      | .ok _ => ({ s1 with syncJobs := eraseKey s1.syncJobs accountId }, .ok st1)
      | .error e => (s1, .error e)
    | none => (s1, .ok st1)

/-- Model of the hourly `scheduledSync`: for every active and connected
account whose progress record is absent or not RUNNING, invoke `startSync`
(per-account failures are caught and logged).  Returns the final state and
the ids on which `startSync` was invoked. -/
def scheduledStep (now : Nat) (acc : ServiceState × List String) (a : EmailAccount) :
    ServiceState × List String :=
  match lookupKey acc.1.syncStatuses a.id with
  | some pr =>
    if pr.status = .RUNNING then acc
    else ((startSync acc.1 a.id now).1, acc.2 ++ [a.id])
  | none => ((startSync acc.1 a.id now).1, acc.2 ++ [a.id])

def scheduledSync (s : ServiceState) (now : Nat) : ServiceState × List String :=
  (s.accounts.filter (fun a => a.isActive && a.isConnected)).foldl
    (scheduledStep now) (s, [])

/-! ### The background run (`performSync` / `processEmailBatch`) -/

/-- One iteration of the `processEmailBatch` loop over an accumulator of
(stored keys, success, failed): an already-stored `(accountId, messageId)`
pair is skipped (`continue`), otherwise the message is analyzed, built and
saved — on success the key is stored and `success` incremented, on a caught
failure only `failed` is incremented. -/
def processEmailStep (accountId : String) (acc : List (String × String) × Nat × Nat)
    (e : RawEmail) : List (String × String) × Nat × Nat :=
  if acc.1.contains (accountId, e.messageId) then acc
  else if e.saveOk then ((accountId, e.messageId) :: acc.1, acc.2.1 + 1, acc.2.2)
  else (acc.1, acc.2.1, acc.2.2 + 1)

/-- Model of `processEmailBatch`. -/
def processEmailBatch (store : List (String × String)) (accountId : String)
    (emails : List RawEmail) : List (String × String) × Nat × Nat :=
  emails.foldl (processEmailStep accountId) (store, 0, 0)

/-- The mutable context of one `performSync` run: the database, the local
`totalProcessed` / `totalFailed` counters, the closure-local `isCancelled`
flag, and the ordered snapshots of the status record after each persisted
write (the run's observable progress trace). -/
structure RunState where
  db : ServiceState
  totalProcessed : Nat
  totalFailed : Nat
  isCancelled : Bool
  trace : List SyncStatus
  deriving Repr

/-- A `findOneAndUpdate({accountId}, ...)` without upsert: apply `f` to the
record when it exists (appending the written document to the trace), and do
nothing when no document matches. -/
def updStatus (accountId : String) (f : SyncStatus → SyncStatus) (rs : RunState) : RunState :=
  match lookupKey rs.db.syncStatuses accountId with
  | none => rs
  | some st =>
    let st1 := f st
    { rs with
      db := { rs.db with syncStatuses := setKey rs.db.syncStatuses accountId st1 },
      trace := rs.trace ++ [st1] }

/-- The values taken by `i` in `for (let i = 0; i < len; i += batchSize)`.
With `batchSize = 0` the JS loop would not terminate for a nonempty list;
that input is unreachable because `getEmails` with limit 0 returns `[]`. -/
def batchStarts (batchSize len : Nat) : List Nat :=
  if batchSize = 0 then []
  else (List.range ((len + batchSize - 1) / batchSize)).map (· * batchSize)

/-- The counter-reset write at the top of `performSync`. -/
def resetCountersWrite (st : SyncStatus) : SyncStatus :=
  { st with totalEmails := 0, processedEmails := 0, failedEmails := 0, folderProgress := [] }

/-- The `currentFolder` write at the top of the folder loop. -/
def currentFolderWrite (name : String) (st : SyncStatus) : SyncStatus :=
  { st with currentFolder := some name }

/-- The `$inc: { totalEmails: emails.length }` write after a folder fetch. -/
def totalEmailsWrite (n : Nat) (st : SyncStatus) : SyncStatus :=
  { st with totalEmails := st.totalEmails + n }

/-- The per-batch progress write: `$inc` both counters and set the resume
cursor to the batch's last message id (an empty batch leaves the cursor
unchanged, the `undefined` value being stripped by the driver). -/
def progressWrite (success failed : Nat) (cursor : Option String) (st : SyncStatus) :
    SyncStatus :=
  { st with
    processedEmails := st.processedEmails + success,
    failedEmails := st.failedEmails + failed,
    lastProcessedMessageId :=
      match cursor with
      | some c => some c
      | none => st.lastProcessedMessageId }

/-- The per-batch folder sub-progress write. -/
def folderProgWrite (folder : String) (fp : FolderProgress) (st : SyncStatus) : SyncStatus :=
  { st with folderProgress := setKey st.folderProgress folder fp }

/-- The completion write of `performSync`'s non-cancelled exit. -/
def completedWrite (now tp tf : Nat) (st : SyncStatus) : SyncStatus :=
  { st with status := .COMPLETED, completedAt := some now,
            processedEmails := tp, failedEmails := tf }

/-- The inner batch loop of `performSync`: for each start index (checking the
cancellation flag first) slice the batch, process it, add the batch result to
the local counters, persist the counter increments and the new resume cursor,
persist the folder sub-progress (whose `failed` field the source fills with
the global `totalFailed`), and set the cancellation flag when a positive
`maxEmails` cap has been reached. -/
def runBatches (accountId : String) (batchSize maxEmails : Nat) (folder : String)
    (emails : List RawEmail) : List Nat → RunState → RunState
  | [], rs => rs
  | i :: rest, rs =>
    if rs.isCancelled then rs
    else
      let batch := (emails.drop i).take batchSize
      let pr := processEmailBatch rs.db.emails accountId batch
      let rs1 :=
        { rs with
          db := { rs.db with emails := pr.1 },
          totalProcessed := rs.totalProcessed + pr.2.1,
          totalFailed := rs.totalFailed + pr.2.2 }
      let rs2 := updStatus accountId
        (progressWrite pr.2.1 pr.2.2 (batch.getLast?.map (·.messageId))) rs1
      let rs3 := updStatus accountId
        (folderProgWrite folder
          { total := emails.length,
            processed := min (i + batchSize) emails.length,
            failed := rs1.totalFailed }) rs2
      if maxEmails > 0 && maxEmails ≤ rs1.totalProcessed then
        { rs3 with isCancelled := true }
      else
        runBatches accountId batchSize maxEmails folder emails rest rs3

/-- One folder of the `performSync` folder loop: persist the current folder,
then — unless opening/fetching the folder fails, which the folder-level catch
turns into one counted failure — fetch the newest `batchSize` messages
(`getEmails(account, folder, batchSize, 0)`), add their count to
`totalEmails`, and run the batch loop. -/
def runFolder (accountId : String) (batchSize maxEmails : Nat) (now : Int)
    (f : SyncFolder) (rs : RunState) : RunState :=
  let rs1 := updStatus accountId (currentFolderWrite f.name) rs
  if f.fetchOk then
    let emails := getEmails f.msgs batchSize 0 now
    let rs2 := updStatus accountId (totalEmailsWrite emails.length) rs1
    runBatches accountId batchSize maxEmails f.name emails
      (batchStarts batchSize emails.length) rs2
  else
    { rs1 with totalFailed := rs1.totalFailed + 1 }

/-- The folder loop: sequential, checking the cancellation flag before each
folder. -/
def runFolders (accountId : String) (batchSize maxEmails : Nat) (now : Int) :
    List SyncFolder → RunState → RunState
  | [], rs => rs
  | f :: rest, rs =>
    if rs.isCancelled then rs
    else runFolders accountId batchSize maxEmails now rest
      (runFolder accountId batchSize maxEmails now f rs)

/-- The options `performSync` destructures; `resumeFrom` is never used by the
source. -/
structure SyncOptions where
  batchSize : Nat
  maxEmails : Nat
  folders : Option (List String)
  resumeFrom : Option String
  deriving Repr

structure RunResult where
  state : ServiceState
  trace : List SyncStatus
  totalProcessed : Nat
  totalFailed : Nat
  cancelled : Bool
  deriving Repr

/-- `const foldersToSync = folders || allFolders`: an explicit filter names
folders by string; opening a name the server does not know fails, which the
folder-level catch absorbs. -/
def resolveFolders (mailbox : List SyncFolder) : Option (List String) → List SyncFolder
  | some names => names.map (fun n =>
      match mailbox.find? (fun f => f.name == n) with
      | some f => f
      | none => { name := n, fetchOk := false, msgs := [] })
  | none => mailbox

/-- Model of the background `performSync` task on its happy connection path
(`mailbox` is the upstream server content; an explicit folder filter entry
that the server does not know is a folder whose open fails).  It resets the
counters of an existing status record, runs the folder loop, and — only when
not cancelled — marks COMPLETED, stamps the completion time, writes the final
counters and writes the account's last-sync timestamp and synced count; the
`finally` clause drops the job registry entry in every case. -/
def performSync (s : ServiceState) (account : EmailAccount) (opts : SyncOptions)
    (mailbox : List SyncFolder) (now : Nat) : RunResult :=
  let accountId := account.id
  let foldersToSync : List SyncFolder := resolveFolders mailbox opts.folders
  let rs0 : RunState :=
    { db := s, totalProcessed := 0, totalFailed := 0, isCancelled := false, trace := [] }
  let rs1 := updStatus accountId resetCountersWrite rs0
  let rs2 := runFolders accountId opts.batchSize opts.maxEmails (now : Int) foldersToSync rs1
  let rs3 :=
    if rs2.isCancelled then rs2
    else
      let rsC := updStatus accountId
        (completedWrite now rs2.totalProcessed rs2.totalFailed) rs2
      { rsC with
        db := { rsC.db with
                accounts := rsC.db.accounts.map (fun a =>
                  if a.id == accountId then
                    { a with lastSyncAt := some now, syncedEmails := rs2.totalProcessed }
                  else a) } }
  { state := { rs3.db with syncJobs := eraseKey rs3.db.syncJobs accountId },
    trace := rs3.trace,
    totalProcessed := rs3.totalProcessed,
    totalFailed := rs3.totalFailed,
    cancelled := rs3.isCancelled }

/-! ### Association-list lemmas -/

theorem lookupKey_nil {β : Type} (k : String) : lookupKey ([] : List (String × β)) k = none := rfl

theorem lookupKey_cons {β : Type} (p : String × β) (rest : List (String × β)) (k : String) :
    lookupKey (p :: rest) k = if p.1 = k then some p.2 else lookupKey rest k := by
  by_cases h : p.1 = k
  · simp [lookupKey, List.find?_cons, h]
  · simp [lookupKey, List.find?_cons, h]

theorem setKey_cons {β : Type} (p : String × β) (rest : List (String × β)) (k : String) (v : β) :
    setKey (p :: rest) k v = if p.1 = k then (k, v) :: rest else p :: setKey rest k v := by
  by_cases h : p.1 = k <;> simp [setKey, h]

theorem eraseKey_cons {β : Type} (p : String × β) (rest : List (String × β)) (k : String) :
    eraseKey (p :: rest) k = if p.1 = k then rest else p :: eraseKey rest k := by
  by_cases h : p.1 = k <;> simp [eraseKey, h]

theorem lookupKey_setKey_self {β : Type} (l : List (String × β)) (k : String) (v : β) :
    lookupKey (setKey l k v) k = some v := by
  induction l with
  | nil => simp [setKey, lookupKey_cons]
  | cons p rest ih =>
    rw [setKey_cons]
    by_cases h : p.1 = k
    · simp [h, lookupKey_cons]
    · simp [h, lookupKey_cons, ih]

theorem lookupKey_setKey_ne {β : Type} (l : List (String × β)) (k k' : String) (v : β)
    (h : k' ≠ k) : lookupKey (setKey l k v) k' = lookupKey l k' := by
  induction l with
  | nil => simp [setKey, lookupKey_cons, lookupKey_nil, Ne.symm h]
  | cons p rest ih =>
    rw [setKey_cons]
    by_cases hp : p.1 = k
    · simp [hp, lookupKey_cons, Ne.symm h]
    · simp [hp, lookupKey_cons, ih]

theorem keys_setKey {β : Type} (l : List (String × β)) (k : String) (v : β) :
    (setKey l k v).map Prod.fst = l.map Prod.fst ∨
    (setKey l k v).map Prod.fst = l.map Prod.fst ++ [k] := by
  induction l with
  | nil => right; simp [setKey]
  | cons p rest ih =>
    rw [setKey_cons]
    by_cases h : p.1 = k
    · left; simp [h]
    · rcases ih with ih | ih
      · left; simp [h, ih]
      · right; simp [h, ih]

theorem nodup_keys_setKey {β : Type} (l : List (String × β)) (k : String) (v : β)
    (hn : (l.map Prod.fst).Nodup) : ((setKey l k v).map Prod.fst).Nodup := by
  induction l with
  | nil => simp [setKey]
  | cons p rest ih =>
    rw [setKey_cons]
    simp only [List.map_cons, List.nodup_cons] at hn
    by_cases h : p.1 = k
    · simpa [h] using hn
    · have hrest := ih hn.2
      simp only [if_neg h, List.map_cons, List.nodup_cons]
      refine ⟨?_, hrest⟩
      intro hmem
      rcases keys_setKey rest k v with hk | hk
      · exact hn.1 (hk ▸ hmem)
      · rw [hk] at hmem
        rcases List.mem_append.mp hmem with hm | hm
        · exact hn.1 hm
        · exact h (List.mem_singleton.mp hm)

theorem lookupKey_mem_keys {β : Type} (l : List (String × β)) (k : String) (v : β)
    (h : lookupKey l k = some v) : k ∈ l.map Prod.fst := by
  induction l with
  | nil => simp [lookupKey_nil] at h
  | cons p rest ih =>
    rw [lookupKey_cons] at h
    by_cases hp : p.1 = k
    · simp [hp]
    · rw [if_neg hp] at h
      exact List.mem_cons_of_mem _ (ih h)

theorem lookupKey_eraseKey_self {β : Type} (l : List (String × β)) (k : String)
    (hn : (l.map Prod.fst).Nodup) : lookupKey (eraseKey l k) k = none := by
  induction l with
  | nil => simp [eraseKey, lookupKey_nil]
  | cons p rest ih =>
    rw [eraseKey_cons]
    simp only [List.map_cons, List.nodup_cons] at hn
    by_cases h : p.1 = k
    · subst h
      rw [if_pos rfl]
      cases hl : lookupKey rest p.1 with
      | none => rfl
      | some v => exact absurd (lookupKey_mem_keys rest p.1 v hl) hn.1
    · simp [h, lookupKey_cons, ih hn.2]

/-! ### Run-state preservation lemmas

Every write `performSync` issues during a run goes to the status record; the
following lemmas record what those writes can and cannot change. -/

theorem updStatus_db_emails (aid : String) (f : SyncStatus → SyncStatus) (rs : RunState) :
    (updStatus aid f rs).db.emails = rs.db.emails := by
  unfold updStatus; split <;> rfl

theorem updStatus_db_accounts (aid : String) (f : SyncStatus → SyncStatus) (rs : RunState) :
    (updStatus aid f rs).db.accounts = rs.db.accounts := by
  unfold updStatus; split <;> rfl

theorem updStatus_db_syncJobs (aid : String) (f : SyncStatus → SyncStatus) (rs : RunState) :
    (updStatus aid f rs).db.syncJobs = rs.db.syncJobs := by
  unfold updStatus; split <;> rfl

theorem updStatus_totalProcessed (aid : String) (f : SyncStatus → SyncStatus) (rs : RunState) :
    (updStatus aid f rs).totalProcessed = rs.totalProcessed := by
  unfold updStatus; split <;> rfl

theorem updStatus_totalFailed (aid : String) (f : SyncStatus → SyncStatus) (rs : RunState) :
    (updStatus aid f rs).totalFailed = rs.totalFailed := by
  unfold updStatus; split <;> rfl

theorem updStatus_isCancelled (aid : String) (f : SyncStatus → SyncStatus) (rs : RunState) :
    (updStatus aid f rs).isCancelled = rs.isCancelled := by
  unfold updStatus; split <;> rfl

theorem updStatus_lookup (aid : String) (f : SyncStatus → SyncStatus) (rs : RunState) :
    lookupKey (updStatus aid f rs).db.syncStatuses aid
      = (lookupKey rs.db.syncStatuses aid).map f := by
  unfold updStatus
  cases h : lookupKey rs.db.syncStatuses aid <;> simp [h, lookupKey_setKey_self]

theorem updStatus_lookup_ne (aid aid2 : String) (f : SyncStatus → SyncStatus) (rs : RunState)
    (h : aid2 ≠ aid) :
    lookupKey (updStatus aid f rs).db.syncStatuses aid2
      = lookupKey rs.db.syncStatuses aid2 := by
  unfold updStatus
  cases hk : lookupKey rs.db.syncStatuses aid <;> simp [hk, lookupKey_setKey_ne _ _ _ _ h]

theorem runBatches_db_accounts (aid : String) (b m : Nat) (fo : String)
    (emails : List RawEmail) (starts : List Nat) (rs : RunState) :
    (runBatches aid b m fo emails starts rs).db.accounts = rs.db.accounts := by
  induction starts generalizing rs with
  | nil => rfl
  | cons i rest ih =>
    simp only [runBatches]
    split
    · rfl
    · split
      · simp [updStatus_db_accounts]
      · rw [ih]; simp [updStatus_db_accounts]

theorem runBatches_db_syncJobs (aid : String) (b m : Nat) (fo : String)
    (emails : List RawEmail) (starts : List Nat) (rs : RunState) :
    (runBatches aid b m fo emails starts rs).db.syncJobs = rs.db.syncJobs := by
  induction starts generalizing rs with
  | nil => rfl
  | cons i rest ih =>
    simp only [runBatches]
    split
    · rfl
    · split
      · simp [updStatus_db_syncJobs]
      · rw [ih]; simp [updStatus_db_syncJobs]

theorem runFolder_db_accounts (aid : String) (b m : Nat) (now : Int) (f : SyncFolder)
    (rs : RunState) :
    (runFolder aid b m now f rs).db.accounts = rs.db.accounts := by
  unfold runFolder
  split
  · rw [runBatches_db_accounts]; simp [updStatus_db_accounts]
  · simp [updStatus_db_accounts]

theorem runFolder_db_syncJobs (aid : String) (b m : Nat) (now : Int) (f : SyncFolder)
    (rs : RunState) :
    (runFolder aid b m now f rs).db.syncJobs = rs.db.syncJobs := by
  unfold runFolder
  split
  · rw [runBatches_db_syncJobs]; simp [updStatus_db_syncJobs]
  · simp [updStatus_db_syncJobs]

theorem runFolders_db_accounts (aid : String) (b m : Nat) (now : Int)
    (folders : List SyncFolder) (rs : RunState) :
    (runFolders aid b m now folders rs).db.accounts = rs.db.accounts := by
  induction folders generalizing rs with
  | nil => rfl
  | cons f rest ih =>
    simp only [runFolders]
    split
    · rfl
    · rw [ih, runFolder_db_accounts]

theorem runFolders_db_syncJobs (aid : String) (b m : Nat) (now : Int)
    (folders : List SyncFolder) (rs : RunState) :
    (runFolders aid b m now folders rs).db.syncJobs = rs.db.syncJobs := by
  induction folders generalizing rs with
  | nil => rfl
  | cons f rest ih =>
    simp only [runFolders]
    split
    · rfl
    · rw [ih, runFolder_db_syncJobs]

/-! ### Status and completion-time preservation during a run

No write issued between the counter reset and the completion block of
`performSync` touches the `status` or `completedAt` fields. -/

def statusProj (aid : String) (rs : RunState) : Option (SyncState × Option Nat) :=
  (lookupKey rs.db.syncStatuses aid).map (fun st => (st.status, st.completedAt))

theorem updStatus_statusProj (aid : String) (f : SyncStatus → SyncStatus) (rs : RunState)
    (hf : ∀ st, (f st).status = st.status ∧ (f st).completedAt = st.completedAt) :
    statusProj aid (updStatus aid f rs) = statusProj aid rs := by
  simp only [statusProj, updStatus_lookup]
  cases h : lookupKey rs.db.syncStatuses aid with
  | none => rfl
  | some st => simp [(hf st).1, (hf st).2]

theorem runBatches_statusProj (aid : String) (b m : Nat) (fo : String)
    (emails : List RawEmail) (starts : List Nat) (rs : RunState) :
    statusProj aid (runBatches aid b m fo emails starts rs) = statusProj aid rs := by
  induction starts generalizing rs with
  | nil => rfl
  | cons i rest ih =>
    simp only [runBatches]
    split
    · rfl
    · have hproj : ∀ rs', statusProj aid rs' = statusProj aid rs →
        statusProj aid { rs' with isCancelled := true } = statusProj aid rs := by
        intro rs' h; simpa [statusProj] using h
      split
      · apply hproj
        rw [updStatus_statusProj, updStatus_statusProj]
        · rfl
        · intro st; exact ⟨rfl, rfl⟩
        · intro st; exact ⟨rfl, rfl⟩
      · rw [ih, updStatus_statusProj, updStatus_statusProj]
        · rfl
        · intro st; exact ⟨rfl, rfl⟩
        · intro st; exact ⟨rfl, rfl⟩

theorem runFolder_statusProj (aid : String) (b m : Nat) (now : Int) (f : SyncFolder)
    (rs : RunState) :
    statusProj aid (runFolder aid b m now f rs) = statusProj aid rs := by
  unfold runFolder
  split
  · rw [runBatches_statusProj, updStatus_statusProj, updStatus_statusProj]
    · intro st; exact ⟨rfl, rfl⟩
    · intro st; exact ⟨rfl, rfl⟩
  · have h := updStatus_statusProj aid
      (currentFolderWrite f.name) rs (fun st => ⟨rfl, rfl⟩)
    simpa [statusProj] using h

theorem runFolders_statusProj (aid : String) (b m : Nat) (now : Int)
    (folders : List SyncFolder) (rs : RunState) :
    statusProj aid (runFolders aid b m now folders rs) = statusProj aid rs := by
  induction folders generalizing rs with
  | nil => rfl
  | cons f rest ih =>
    simp only [runFolders]
    split
    · rfl
    · rw [ih, runFolder_statusProj]

/-! ### The observable processing core of a run

The folder/batch loops read the database only through the stored-message
collection; the status record is write-only during a run.  `runCore`
projects a `RunState` to the components that drive the control flow, and the
`...Obs` functions compute the loops' effect on that projection alone, which
yields both independence from the status store and the cap/cancellation
lemmas. -/

structure RunObs where
  emails : List (String × String)
  tp : Nat
  tf : Nat
  cancelled : Bool
  deriving DecidableEq, Repr

def runCore (rs : RunState) : RunObs :=
  ⟨rs.db.emails, rs.totalProcessed, rs.totalFailed, rs.isCancelled⟩

def runBatchesObs (aid : String) (b m : Nat) (emails : List RawEmail) :
    List Nat → RunObs → RunObs
  | [], c => c
  | i :: rest, c =>
    if c.cancelled then c
    else
      let pr := processEmailBatch c.emails aid ((emails.drop i).take b)
      let c1 : RunObs := ⟨pr.1, c.tp + pr.2.1, c.tf + pr.2.2, false⟩
      if m > 0 && m ≤ c1.tp then { c1 with cancelled := true }
      else runBatchesObs aid b m emails rest c1

def runFolderObs (aid : String) (b m : Nat) (now : Int) (f : SyncFolder) (c : RunObs) :
    RunObs :=
  if f.fetchOk then
    let emails := getEmails f.msgs b 0 now
    runBatchesObs aid b m emails (batchStarts b emails.length) c
  else { c with tf := c.tf + 1 }

def runFoldersObs (aid : String) (b m : Nat) (now : Int) :
    List SyncFolder → RunObs → RunObs
  | [], c => c
  | f :: rest, c =>
    if c.cancelled then c
    else runFoldersObs aid b m now rest (runFolderObs aid b m now f c)

theorem updStatus_runCore (aid : String) (f : SyncStatus → SyncStatus) (rs : RunState) :
    runCore (updStatus aid f rs) = runCore rs := by
  unfold updStatus; split <;> rfl

theorem runCore_emails (rs : RunState) : (runCore rs).emails = rs.db.emails := rfl

theorem runCore_tp (rs : RunState) : (runCore rs).tp = rs.totalProcessed := rfl

theorem runCore_tf (rs : RunState) : (runCore rs).tf = rs.totalFailed := rfl

theorem runCore_cancelled (rs : RunState) : (runCore rs).cancelled = rs.isCancelled := rfl

theorem runBatches_runCore (aid : String) (b m : Nat) (fo : String)
    (emails : List RawEmail) (starts : List Nat) (rs : RunState) :
    runCore (runBatches aid b m fo emails starts rs)
      = runBatchesObs aid b m emails starts (runCore rs) := by
  induction starts generalizing rs with
  | nil => rfl
  | cons i rest ih =>
    simp only [runBatches, runBatchesObs, runCore_cancelled, runCore_emails, runCore_tp,
      runCore_tf]
    cases hcc : rs.isCancelled with
    | true => simp [hcc]
    | false =>
      simp only [hcc, Bool.false_eq_true, if_false]
      split
      · simp [runCore, updStatus_db_emails, updStatus_totalProcessed, updStatus_totalFailed]
      · rw [ih]
        congr 1
        rw [updStatus_runCore, updStatus_runCore]
        simp [runCore, hcc]

theorem runFolder_runCore (aid : String) (b m : Nat) (now : Int) (f : SyncFolder)
    (rs : RunState) :
    runCore (runFolder aid b m now f rs) = runFolderObs aid b m now f (runCore rs) := by
  unfold runFolder runFolderObs
  split
  · rw [runBatches_runCore, updStatus_runCore, updStatus_runCore]
  · simp [runCore, updStatus_db_emails, updStatus_totalProcessed, updStatus_totalFailed,
      updStatus_isCancelled]

theorem runFolders_runCore (aid : String) (b m : Nat) (now : Int)
    (folders : List SyncFolder) (rs : RunState) :
    runCore (runFolders aid b m now folders rs)
      = runFoldersObs aid b m now folders (runCore rs) := by
  induction folders generalizing rs with
  | nil => rfl
  | cons f rest ih =>
    simp only [runFolders, runFoldersObs, runCore_cancelled]
    by_cases hcc : rs.isCancelled = true
    · rw [if_pos hcc, if_pos hcc]
    · rw [if_neg hcc, if_neg hcc, ih, runFolder_runCore]

/-! ### Cap and cancellation lemmas on the observable core -/

theorem runBatchesObs_tp_mono (aid : String) (b m : Nat) (emails : List RawEmail)
    (starts : List Nat) (c : RunObs) :
    c.tp ≤ (runBatchesObs aid b m emails starts c).tp := by
  induction starts generalizing c with
  | nil => exact le_refl _
  | cons i rest ih =>
    simp only [runBatchesObs]
    split
    · exact le_refl _
    · split
      · exact Nat.le_add_right _ _
      · exact le_trans (Nat.le_add_right _ _)
          (ih ⟨(processEmailBatch c.emails aid ((emails.drop i).take b)).1,
               c.tp + (processEmailBatch c.emails aid ((emails.drop i).take b)).2.1,
               c.tf + (processEmailBatch c.emails aid ((emails.drop i).take b)).2.2, false⟩)

theorem runFolderObs_tp_mono (aid : String) (b m : Nat) (now : Int) (f : SyncFolder)
    (c : RunObs) : c.tp ≤ (runFolderObs aid b m now f c).tp := by
  unfold runFolderObs
  split
  · exact runBatchesObs_tp_mono _ _ _ _ _ _
  · exact le_refl _

theorem runFoldersObs_tp_mono (aid : String) (b m : Nat) (now : Int)
    (folders : List SyncFolder) (c : RunObs) :
    c.tp ≤ (runFoldersObs aid b m now folders c).tp := by
  induction folders generalizing c with
  | nil => exact le_refl _
  | cons f rest ih =>
    simp only [runFoldersObs]
    split
    · exact le_refl _
    · exact le_trans (runFolderObs_tp_mono _ _ _ _ _ _) (ih _)

theorem runBatchesObs_cancel_iff_cap (aid : String) (b m : Nat) (emails : List RawEmail)
    (starts : List Nat) (c : RunObs) (hm : 0 < m) (hc : c.cancelled = false)
    (htp : c.tp < m) :
    (runBatchesObs aid b m emails starts c).cancelled = true
      ↔ m ≤ (runBatchesObs aid b m emails starts c).tp := by
  induction starts generalizing c with
  | nil =>
    simp only [runBatchesObs, hc]
    constructor
    · intro h; cases h
    · intro h; omega
  | cons i rest ih =>
    simp only [runBatchesObs, hc, Bool.false_eq_true, if_false]
    split
    · next hcap =>
      have := (Bool.and_eq_true _ _).mp hcap
      constructor
      · intro _
        exact Nat.le_of_ble_eq_true (by simpa [Nat.ble_eq] using this.2)
      · intro _; rfl
    · next hcap =>
      have hlt : c.tp + (processEmailBatch c.emails aid ((emails.drop i).take b)).2.1 < m := by
        rcases Bool.and_eq_false_iff.mp (Bool.not_eq_true _ |>.mp hcap) with h | h
        · exact absurd h (by simp [hm])
        · simpa [Nat.not_le] using (by simpa using h : ¬ m ≤ c.tp + _)
      exact ih _ rfl hlt

theorem runBatchesObs_cancelled_id (aid : String) (b m : Nat) (emails : List RawEmail)
    (starts : List Nat) (c : RunObs) (hc : c.cancelled = true) :
    runBatchesObs aid b m emails starts c = c := by
  cases starts with
  | nil => rfl
  | cons i rest => simp [runBatchesObs, hc]

theorem runFoldersObs_cancelled_id (aid : String) (b m : Nat) (now : Int)
    (folders : List SyncFolder) (c : RunObs) (hc : c.cancelled = true) :
    runFoldersObs aid b m now folders c = c := by
  cases folders with
  | nil => rfl
  | cons f rest => simp [runFoldersObs, hc]

theorem runFolderObs_cancel_iff_cap (aid : String) (b m : Nat) (now : Int) (f : SyncFolder)
    (c : RunObs) (hm : 0 < m) (hc : c.cancelled = false) (htp : c.tp < m) :
    (runFolderObs aid b m now f c).cancelled = true
      ↔ m ≤ (runFolderObs aid b m now f c).tp := by
  unfold runFolderObs
  split
  · exact runBatchesObs_cancel_iff_cap _ _ _ _ _ _ hm hc htp
  · simp only [hc]
    constructor
    · intro h; cases h
    · intro h; omega

theorem runFoldersObs_cancel_iff_cap (aid : String) (b m : Nat) (now : Int)
    (folders : List SyncFolder) (c : RunObs) (hm : 0 < m) (hc : c.cancelled = false)
    (htp : c.tp < m) :
    (runFoldersObs aid b m now folders c).cancelled = true
      ↔ m ≤ (runFoldersObs aid b m now folders c).tp := by
  induction folders generalizing c with
  | nil =>
    simp only [runFoldersObs, hc]
    constructor
    · intro h; cases h
    · intro h; omega
  | cons f rest ih =>
    simp only [runFoldersObs, hc, Bool.false_eq_true, if_false]
    cases hc' : (runFolderObs aid b m now f c).cancelled with
    | true =>
      rw [runFoldersObs_cancelled_id _ _ _ _ _ _ hc']
      have hcap := (runFolderObs_cancel_iff_cap aid b m now f c hm hc htp).mp hc'
      constructor
      · intro _; exact hcap
      · intro _; exact hc'
    | false =>
      have htp' : (runFolderObs aid b m now f c).tp < m := by
        by_contra hle
        have := (runFolderObs_cancel_iff_cap aid b m now f c hm hc htp).mpr
          (Nat.le_of_not_lt hle)
        rw [hc'] at this
        cases this
      exact ih _ hc' htp'

/-! ### Monotonicity of the persisted `processedEmails` within one run

`statusInv` ties together the trace of persisted status snapshots, the
current record and the local `totalProcessed` counter: the persisted
`processedEmails` values form a non-decreasing chain, the last snapshot is
the current record, and the record's counter never exceeds the local one. -/

def statusInv (aid : String) (rs : RunState) : Prop :=
  List.Chain' (· ≤ ·) (rs.trace.map (·.processedEmails)) ∧
  (∀ st, rs.trace.getLast? = some st → lookupKey rs.db.syncStatuses aid = some st) ∧
  (∀ st, lookupKey rs.db.syncStatuses aid = some st →
    st.processedEmails ≤ rs.totalProcessed)

theorem statusInv_bump (aid : String) (rs rs' : RunState)
    (htrace : rs'.trace = rs.trace) (hst : rs'.db.syncStatuses = rs.db.syncStatuses)
    (htp : rs.totalProcessed ≤ rs'.totalProcessed) (hinv : statusInv aid rs) :
    statusInv aid rs' := by
  obtain ⟨h1, h2, h3⟩ := hinv
  refine ⟨htrace ▸ h1, ?_, ?_⟩
  · intro st h
    rw [hst]
    exact h2 st (htrace ▸ h)
  · intro st h
    exact le_trans (h3 st (hst ▸ h)) htp

theorem statusInv_updStatus (aid : String) (f : SyncStatus → SyncStatus) (rs : RunState)
    (hinv : statusInv aid rs)
    (hf : ∀ st, lookupKey rs.db.syncStatuses aid = some st →
        st.processedEmails ≤ (f st).processedEmails ∧
        (f st).processedEmails ≤ rs.totalProcessed) :
    statusInv aid (updStatus aid f rs) := by
  obtain ⟨hchain, hlast, hbound⟩ := hinv
  unfold updStatus
  cases hk : lookupKey rs.db.syncStatuses aid with
  | none => exact ⟨hchain, hlast, hbound⟩
  | some st =>
    refine ⟨?_, ?_, ?_⟩
    · simp only [List.map_append]
      refine List.Chain'.append hchain (List.chain'_singleton _) ?_
      intro x hx y hy
      simp only [List.getLast?_map] at hx
      rw [Option.mem_def, Option.map_eq_some'] at hx
      obtain ⟨st0, hst0, hx⟩ := hx
      have := hlast st0 hst0
      rw [hk] at this
      cases this
      simp only [List.map_cons, List.map_nil, List.head?_cons, Option.mem_def,
        Option.some.injEq] at hy
      subst hx
      subst hy
      exact (hf st hk).1
    · intro st1 h1
      rw [List.getLast?_concat] at h1
      cases h1
      simp [lookupKey_setKey_self]
    · intro st1 h1
      simp only [lookupKey_setKey_self, Option.some.injEq] at h1
      subst h1
      exact (hf st hk).2

theorem statusInv_after_reset (aid : String) (f : SyncStatus → SyncStatus) (rs : RunState)
    (htrace : rs.trace = []) (htp : rs.totalProcessed = 0)
    (hf : ∀ st, (f st).processedEmails = 0) :
    statusInv aid (updStatus aid f rs) := by
  unfold updStatus
  cases hk : lookupKey rs.db.syncStatuses aid with
  | none =>
    refine ⟨?_, ?_, ?_⟩
    · rw [htrace]; exact List.chain'_nil
    · intro st h
      rw [htrace] at h
      cases h
    · intro st h
      rw [hk] at h
      cases h
  | some st =>
    refine ⟨?_, ?_, ?_⟩
    · rw [htrace]; exact List.chain'_singleton _
    · intro st1 h1
      rw [htrace] at h1
      simp only [List.nil_append, List.getLast?_singleton, Option.some.injEq] at h1
      subst h1
      simp [lookupKey_setKey_self]
    · intro st1 h1
      simp only [lookupKey_setKey_self, Option.some.injEq] at h1
      subst h1
      rw [hf st, htp]

theorem runBatches_statusInv (aid : String) (b m : Nat) (fo : String)
    (emails : List RawEmail) (starts : List Nat) (rs : RunState)
    (hinv : statusInv aid rs) :
    statusInv aid (runBatches aid b m fo emails starts rs) := by
  induction starts generalizing rs with
  | nil => exact hinv
  | cons i rest ih =>
    simp only [runBatches]
    split
    · exact hinv
    · have hinv1 : statusInv aid
        { rs with
          db := { rs.db with
                  emails := (processEmailBatch rs.db.emails aid
                    ((emails.drop i).take b)).1 },
          totalProcessed := rs.totalProcessed
            + (processEmailBatch rs.db.emails aid ((emails.drop i).take b)).2.1,
          totalFailed := rs.totalFailed
            + (processEmailBatch rs.db.emails aid ((emails.drop i).take b)).2.2 } :=
        statusInv_bump aid rs _ rfl rfl (Nat.le_add_right _ _) hinv
      have hinv2 := statusInv_updStatus aid
        (progressWrite (processEmailBatch rs.db.emails aid ((emails.drop i).take b)).2.1
          (processEmailBatch rs.db.emails aid ((emails.drop i).take b)).2.2
          ((((emails.drop i).take b)).getLast?.map (·.messageId))) _ hinv1
        (fun st hst =>
          ⟨Nat.le_add_right _ _, Nat.add_le_add_right (hinv.2.2 st hst) _⟩)
      have hinv3 := statusInv_updStatus aid
        (folderProgWrite fo
          { total := emails.length,
            processed := min (i + b) emails.length,
            failed := rs.totalFailed
              + (processEmailBatch rs.db.emails aid ((emails.drop i).take b)).2.2 }) _ hinv2
        (fun st hst => ⟨le_refl _, hinv2.2.2 st hst⟩)
      split
      · exact statusInv_bump aid _ _ rfl rfl (le_refl _) hinv3
      · exact ih _ hinv3

theorem runFolder_statusInv (aid : String) (b m : Nat) (now : Int) (f : SyncFolder)
    (rs : RunState) (hinv : statusInv aid rs) :
    statusInv aid (runFolder aid b m now f rs) := by
  unfold runFolder
  have hinv1 := statusInv_updStatus aid (currentFolderWrite f.name) rs hinv
    (fun st hst => ⟨le_refl _, hinv.2.2 st hst⟩)
  split
  · exact runBatches_statusInv _ _ _ _ _ _ _
      (statusInv_updStatus aid (totalEmailsWrite _) _ hinv1
        (fun st hst => ⟨le_refl _, hinv1.2.2 st hst⟩))
  · exact statusInv_bump aid _ _ rfl rfl (le_refl _) hinv1

theorem runFolders_statusInv (aid : String) (b m : Nat) (now : Int)
    (folders : List SyncFolder) (rs : RunState) (hinv : statusInv aid rs) :
    statusInv aid (runFolders aid b m now folders rs) := by
  induction folders generalizing rs with
  | nil => exact hinv
  | cons f rest ih =>
    simp only [runFolders]
    split
    · exact hinv
    · exact ih _ (runFolder_statusInv aid b m now f rs hinv)

/-! ### Concrete scenario used by several witnesses and counterexamples -/

/-- An account as the fixtures use it. -/
def exAccount : EmailAccount :=
  { id := "a1", email := "user@example.com", imapHost := "imap.example.com",
    isActive := true, isConnected := true, lastSyncAt := none, syncedEmails := 0 }

/-- Initial state: one account, no progress record, no jobs, no messages. -/
def exState0 : ServiceState :=
  { accounts := [exAccount], syncStatuses := [], syncJobs := [], emails := [] }

/-- An INBOX with two parseable, saveable messages. -/
def exMailbox : List SyncFolder :=
  [{ name := "INBOX", fetchOk := true,
     msgs := [{ messageId := "m1", fromHeader := none, date := none,
                parseOk := true, saveOk := true },
              { messageId := "m2", fromHeader := none, date := none,
                parseOk := true, saveOk := true }] }]

/-- `start` with batchSize 1 and maxEmails 1, then the background run: the
run processes one message, hits the cap and exits cancelled. -/
def exAfterStart : ServiceState := (startSync exState0 "a1" 10).1

def exRun1 : RunResult :=
  performSync exAfterStart exAccount
    { batchSize := 1, maxEmails := 1, folders := none, resumeFrom := none } exMailbox 11

/-- Pause after the capped run (the record is still RUNNING, the registry
entry was dropped by the run's `finally`), then resume, then the resumed
background run (`resumeSync` launches `performSync` with batchSize 50 and
maxEmails 0). -/
def exAfterPause : ServiceState := (pauseSync exRun1.state "a1").1

def exAfterResume : ServiceState := (resumeSync exAfterPause "a1").1

def exRun2 : RunResult :=
  performSync exAfterResume exAccount
    { batchSize := 50, maxEmails := 0, folders := none, resumeFrom := some "m2" }
    exMailbox 12

/-! ### C3 — processedEmails across pause/resume -/

/-- C3 counterexample: in the concrete execution start → capped run → pause →
resume → resumed run, the value 1 of `processedEmails` is persisted before
the pause (the capped run's last trace entry and the stored record), but the
resumed run's first persisted write resets `processedEmails` to 0 — an
observed value after the resume that is strictly below one observed before
the pause, so the claimed monotonicity fails. -/
theorem processedEmails_decreases_across_pause_resume :
    (lookupKey exRun1.state.syncStatuses "a1").map (·.processedEmails) = some 1 ∧
    (lookupKey exAfterPause.syncStatuses "a1").map (fun st =>
      (st.status, st.processedEmails)) = some (.PAUSED, 1) ∧
    exRun2.trace.head?.map (·.processedEmails) = some 0 ∧
    ¬ (1 : Nat) ≤ 0 := by
  refine ⟨by decide, by decide, by decide, by decide⟩

/-- C3 amended: within a single `performSync` run the persisted
`processedEmails` never decreases — the trace of persisted status snapshots
is a non-decreasing chain — but `resumeSync` starts a new `performSync`
whose first persisted write resets the counter to 0 and recounts from
scratch, so monotonicity does not extend across a pause/resume cycle. -/
theorem performSync_processedEmails_monotone (s : ServiceState) (account : EmailAccount)
    (opts : SyncOptions) (mailbox : List SyncFolder) (now : Nat) :
    List.Chain' (· ≤ ·)
      ((performSync s account opts mailbox now).trace.map (·.processedEmails)) := by
  simp only [performSync]
  split
  · exact (runFolders_statusInv _ _ _ _ _ _
      (statusInv_after_reset _ resetCountersWrite _ rfl rfl (fun st => rfl))).1
  · exact (statusInv_updStatus _ (completedWrite now _ _) _
      (runFolders_statusInv _ _ _ _ _ _
        (statusInv_after_reset _ resetCountersWrite _ rfl rfl (fun st => rfl)))
      (fun st hst =>
        ⟨(runFolders_statusInv _ _ _ _ _ _
            (statusInv_after_reset _ resetCountersWrite _ rfl rfl (fun st => rfl))).2.2 st hst,
         le_refl _⟩)).1

/-! ### C1 — one RUNNING progress record per account -/

theorem startSync_syncStatuses_other (s : ServiceState) (b aid2 : String) (now : Nat)
    (h : aid2 ≠ b) :
    lookupKey (startSync s b now).1.syncStatuses aid2 = lookupKey s.syncStatuses aid2 := by
  unfold startSync
  split
  · rfl
  · by_cases hgr : (lookupKey s.syncStatuses b).map (fun x => x.status)
      = some SyncState.RUNNING
    · simp [hgr]
    · simp [hgr, lookupKey_setKey_ne _ _ _ _ h]

theorem startSync_keys_nodup (s : ServiceState) (aid : String) (now : Nat)
    (hn : (s.syncStatuses.map Prod.fst).Nodup) :
    ((startSync s aid now).1.syncStatuses.map Prod.fst).Nodup := by
  unfold startSync
  split
  · exact hn
  · by_cases hgr : (lookupKey s.syncStatuses aid).map (fun x => x.status)
      = some SyncState.RUNNING
    · simpa [hgr] using hn
    · simpa [hgr] using nodup_keys_setKey _ _ _ hn

theorem scheduledFold_running_inv (now : Nat) (aid : String) (st : SyncStatus)
    (hrun : st.status = .RUNNING) (accounts : List EmailAccount) :
    ∀ acc : ServiceState × List String,
      lookupKey acc.1.syncStatuses aid = some st → aid ∉ acc.2 →
      lookupKey (accounts.foldl (scheduledStep now) acc).1.syncStatuses aid = some st ∧
      aid ∉ (accounts.foldl (scheduledStep now) acc).2 := by
  induction accounts with
  | nil => exact fun acc h1 h2 => ⟨h1, h2⟩
  | cons a rest ih =>
    intro acc h1 h2
    simp only [List.foldl_cons]
    by_cases haid : a.id = aid
    · have hstep : scheduledStep now acc a = acc := by
        unfold scheduledStep
        rw [haid, h1]
        simp [hrun]
      rw [hstep]
      exact ih acc h1 h2
    · have hne : aid ≠ a.id := fun hh => haid hh.symm
      have hnotin : aid ∉ acc.2 ++ [a.id] := by
        intro hmm
        rcases List.mem_append.mp hmm with hm | hm
        · exact h2 hm
        · exact hne (List.mem_singleton.mp hm)
      have hlook : lookupKey (scheduledStep now acc a).1.syncStatuses aid = some st := by
        unfold scheduledStep
        cases hpr : lookupKey acc.1.syncStatuses a.id with
        | some pr =>
          by_cases hr : pr.status = .RUNNING
          · simpa [hr] using h1
          · simpa [hr] using (startSync_syncStatuses_other _ _ _ now hne).trans h1
        | none =>
          simpa using (startSync_syncStatuses_other _ _ _ now hne).trans h1
      have hmem : aid ∉ (scheduledStep now acc a).2 := by
        unfold scheduledStep
        cases hpr : lookupKey acc.1.syncStatuses a.id with
        | some pr =>
          by_cases hr : pr.status = .RUNNING
          · simpa [hr] using h2
          · simpa [hr] using hnotin
        | none => simpa using hnotin
      exact ih _ hlook hmem

theorem scheduledFold_keys_nodup (now : Nat) (accounts : List EmailAccount) :
    ∀ acc : ServiceState × List String,
      (acc.1.syncStatuses.map Prod.fst).Nodup →
      ((accounts.foldl (scheduledStep now) acc).1.syncStatuses.map Prod.fst).Nodup := by
  induction accounts with
  | nil => exact fun acc h => h
  | cons a rest ih =>
    intro acc h
    simp only [List.foldl_cons]
    refine ih _ ?_
    unfold scheduledStep
    cases hpr : lookupKey acc.1.syncStatuses a.id with
    | some pr =>
      by_cases hr : pr.status = .RUNNING
      · simpa [hr] using h
      · simpa [hr] using startSync_keys_nodup _ _ _ h
    | none => simpa using startSync_keys_nodup _ _ _ h

/-- C1: at most one RUNNING progress record per account.  (1) The record
store is keyed uniquely on `accountId`: both `startSync` and the hourly
`scheduledSync` preserve key uniqueness, so an account never has two records
at all.  (2) A `start` for an account whose record is RUNNING is rejected
with the "already running" error and leaves the state — in particular the
record — unchanged.  (3) The scheduled trigger never invokes `start` on an
account whose record is RUNNING, and leaves such a record untouched. -/
theorem startSync_single_running_guard (s : ServiceState) (aid : String) (now : Nat)
    (st : SyncStatus) (acct : EmailAccount)
    (hacct : findAccount s aid = some acct)
    (hlook : lookupKey s.syncStatuses aid = some st)
    (hrun : st.status = .RUNNING) :
    startSync s aid now
        = (s, .error "Synchronization is already running for this account") ∧
    (lookupKey (scheduledSync s now).1.syncStatuses aid = some st ∧
      aid ∉ (scheduledSync s now).2) ∧
    ((s.syncStatuses.map Prod.fst).Nodup →
      ∀ aid2 now2, ((startSync s aid2 now2).1.syncStatuses.map Prod.fst).Nodup ∧
        ((scheduledSync s now2).1.syncStatuses.map Prod.fst).Nodup) := by
  refine ⟨?_, ?_, ?_⟩
  · unfold startSync
    rw [hacct, hlook]
    simp [hrun]
  · exact scheduledFold_running_inv now aid st hrun _ (s, []) hlook (by simp)
  · intro hn aid2 now2
    exact ⟨startSync_keys_nodup s aid2 now2 hn,
      scheduledFold_keys_nodup now2 _ (s, []) hn⟩

/-- A concrete state with a RUNNING record for account a1. -/
def exRunningState : ServiceState :=
  { accounts := [exAccount],
    syncStatuses := [("a1", { SyncStatus.fresh with status := .RUNNING, startedAt := some 10 })],
    syncJobs := [("a1", performSyncHandle)],
    emails := [] }

/-- Witness for C1 at the concrete RUNNING state. -/
theorem startSync_single_running_guard_witness :
    startSync exRunningState "a1" 13
        = (exRunningState, .error "Synchronization is already running for this account") ∧
    "a1" ∉ (scheduledSync exRunningState 13).2 := by
  have h := startSync_single_running_guard exRunningState "a1" 13
    { SyncStatus.fresh with status := .RUNNING, startedAt := some 10 } exAccount
    (by decide) (by decide) (by decide)
  exact ⟨h.1, h.2.1.2⟩

/-! ### C2 — messages stored at most once per (account, messageId) -/

theorem processEmailStep_eq (aid : String) (acc : List (String × String) × Nat × Nat)
    (e : RawEmail) :
    processEmailStep aid acc e =
      if acc.1.contains (aid, e.messageId) then acc
      else if e.saveOk then ((aid, e.messageId) :: acc.1, acc.2.1 + 1, acc.2.2)
      else (acc.1, acc.2.1, acc.2.2 + 1) := rfl

theorem processFold_nodup (aid : String) (emails : List RawEmail) :
    ∀ (store : List (String × String)) (s0 f0 : Nat), store.Nodup →
      (emails.foldl (processEmailStep aid) (store, s0, f0)).1.Nodup := by
  induction emails with
  | nil => exact fun store s0 f0 hn => hn
  | cons e rest ih =>
    intro store s0 f0 hn
    simp only [List.foldl_cons, processEmailStep_eq]
    by_cases hc : store.contains (aid, e.messageId) = true
    · rw [if_pos hc]
      exact ih _ _ _ hn
    · rw [if_neg hc]
      by_cases hs : e.saveOk = true
      · rw [if_pos hs]
        exact ih _ _ _ (List.Nodup.cons (fun hmem => hc (List.elem_iff.mpr hmem)) hn)
      · rw [if_neg hs]
        exact ih _ _ _ hn

theorem processFold_all_stored (aid : String) (emails : List RawEmail) :
    ∀ (store : List (String × String)) (s0 f0 : Nat),
      (∀ e ∈ emails, (aid, e.messageId) ∈ store) →
      emails.foldl (processEmailStep aid) (store, s0, f0) = (store, s0, f0) := by
  induction emails with
  | nil => exact fun store s0 f0 _ => rfl
  | cons e rest ih =>
    intro store s0 f0 h
    simp only [List.foldl_cons, processEmailStep_eq]
    rw [if_pos (List.elem_iff.mpr (h e (List.mem_cons_self e rest)))]
    exact ih _ _ _ (fun e' he' => h e' (List.mem_cons_of_mem e he'))

theorem processFold_length (aid : String) (emails : List RawEmail) :
    ∀ (store : List (String × String)) (s0 f0 : Nat),
      (emails.foldl (processEmailStep aid) (store, s0, f0)).1.length + s0
        = store.length + (emails.foldl (processEmailStep aid) (store, s0, f0)).2.1 := by
  induction emails with
  | nil => intro store s0 f0; rfl
  | cons e rest ih =>
    intro store s0 f0
    simp only [List.foldl_cons, processEmailStep_eq]
    by_cases hc : store.contains (aid, e.messageId) = true
    · rw [if_pos hc]
      exact ih _ _ _
    · rw [if_neg hc]
      by_cases hs : e.saveOk = true
      · rw [if_pos hs]
        have h := ih ((aid, e.messageId) :: store) (s0 + 1) f0
        simp only [List.length_cons] at h
        omega
      · rw [if_neg hs]
        exact ih _ _ _

/-! Run-level lemmas for C2: over a mailbox all of whose messages are
already stored, the run's store and success counter never change. -/

theorem getEmails_mem (msgs : List ServerMessage) (l o : Nat) (now : Int)
    (e : RawEmail) (he : e ∈ getEmails msgs l o now) :
    ∃ m ∈ msgs, e.messageId = m.messageId := by
  unfold getEmails at he
  rcases List.mem_map.mp he with ⟨m, hm, hme⟩
  have hm2 : m ∈ seqSlice msgs l o := List.mem_of_mem_filter hm
  have hm3 : m ∈ msgs := by
    simp only [seqSlice] at hm2
    split at hm2
    · cases hm2
    · exact (List.drop_subset _ _) ((List.take_subset _ _) hm2)
  exact ⟨m, hm3, by rw [← hme]; rfl⟩

theorem runBatchesObs_all_stored (aid : String) (b m : Nat) (emails : List RawEmail)
    (starts : List Nat) :
    ∀ c : RunObs, (∀ e ∈ emails, (aid, e.messageId) ∈ c.emails) →
      (runBatchesObs aid b m emails starts c).emails = c.emails ∧
      (runBatchesObs aid b m emails starts c).tp = c.tp := by
  induction starts with
  | nil => exact fun c _ => ⟨rfl, rfl⟩
  | cons i rest ih =>
    intro c h
    simp only [runBatchesObs]
    split
    · exact ⟨rfl, rfl⟩
    · have hsub : ∀ e ∈ (emails.drop i).take b, (aid, e.messageId) ∈ c.emails :=
        fun e he => h e ((List.drop_subset _ _) ((List.take_subset _ _) he))
      have hpr : processEmailBatch c.emails aid ((emails.drop i).take b)
          = (c.emails, 0, 0) := processFold_all_stored aid _ c.emails 0 0 hsub
      rw [hpr]
      split
      · exact ⟨rfl, by simp⟩
      · have := ih ⟨c.emails, c.tp + 0, c.tf + 0, false⟩ (by simpa using h)
        refine ⟨this.1.trans rfl, this.2.trans (by simp)⟩

theorem runFolderObs_all_stored (aid : String) (b m : Nat) (now : Int) (f : SyncFolder)
    (c : RunObs) (h : ∀ msg ∈ f.msgs, (aid, msg.messageId) ∈ c.emails) :
    (runFolderObs aid b m now f c).emails = c.emails ∧
    (runFolderObs aid b m now f c).tp = c.tp := by
  unfold runFolderObs
  split
  · refine runBatchesObs_all_stored aid b m _ _ c ?_
    intro e he
    rcases getEmails_mem f.msgs b 0 now e he with ⟨msg, hmsg, hid⟩
    rw [hid]
    exact h msg hmsg
  · exact ⟨rfl, rfl⟩

theorem runFoldersObs_all_stored (aid : String) (b m : Nat) (now : Int)
    (folders : List SyncFolder) :
    ∀ c : RunObs, (∀ f ∈ folders, ∀ msg ∈ f.msgs, (aid, msg.messageId) ∈ c.emails) →
      (runFoldersObs aid b m now folders c).emails = c.emails ∧
      (runFoldersObs aid b m now folders c).tp = c.tp := by
  induction folders with
  | nil => exact fun c _ => ⟨rfl, rfl⟩
  | cons f rest ih =>
    intro c h
    simp only [runFoldersObs]
    split
    · exact ⟨rfl, rfl⟩
    · have hf := runFolderObs_all_stored aid b m now f c
        (fun msg hm => h f (List.mem_cons_self f rest) msg hm)
      have hrest := ih (runFolderObs aid b m now f c)
        (fun f' hf' msg hm => by
          rw [hf.1]
          exact h f' (List.mem_cons_of_mem f hf') msg hm)
      exact ⟨hrest.1.trans hf.1, hrest.2.trans hf.2⟩

theorem resolveFolders_msgs (mailbox : List SyncFolder) (sel : Option (List String))
    (f' : SyncFolder) (hf : f' ∈ resolveFolders mailbox sel) (msg : ServerMessage)
    (hm : msg ∈ f'.msgs) : ∃ f ∈ mailbox, msg ∈ f.msgs := by
  cases sel with
  | none => exact ⟨f', hf, hm⟩
  | some names =>
    rcases List.mem_map.mp hf with ⟨n, hn, hf'⟩
    subst hf'
    cases hfind : mailbox.find? (fun f => f.name == n) with
    | some f =>
      rw [hfind] at hm
      exact ⟨f, List.mem_of_find?_eq_some hfind, hm⟩
    | none =>
      rw [hfind] at hm
      cases hm

/-! Projection helpers for `performSync`: the run state after the folder
loop determines each observable output. -/

/-- The run state right after the counter reset. -/
def initialRunState (s : ServiceState) (aid : String) : RunState :=
  updStatus aid resetCountersWrite
    { db := s, totalProcessed := 0, totalFailed := 0, isCancelled := false, trace := [] }

/-- The run state after the folder loop. -/
def folderLoopState (s : ServiceState) (account : EmailAccount) (opts : SyncOptions)
    (mailbox : List SyncFolder) (now : Nat) : RunState :=
  runFolders account.id opts.batchSize opts.maxEmails (now : Int)
    (resolveFolders mailbox opts.folders) (initialRunState s account.id)

theorem performSync_state_emails (s : ServiceState) (account : EmailAccount)
    (opts : SyncOptions) (mailbox : List SyncFolder) (now : Nat) :
    (performSync s account opts mailbox now).state.emails
      = (folderLoopState s account opts mailbox now).db.emails := by
  simp only [performSync, folderLoopState, initialRunState]
  split
  · rfl
  · simp [updStatus_db_emails]

theorem performSync_totalProcessed (s : ServiceState) (account : EmailAccount)
    (opts : SyncOptions) (mailbox : List SyncFolder) (now : Nat) :
    (performSync s account opts mailbox now).totalProcessed
      = (folderLoopState s account opts mailbox now).totalProcessed := by
  simp only [performSync, folderLoopState, initialRunState]
  split
  · rfl
  · simp [updStatus_totalProcessed]

theorem performSync_cancelled_eq (s : ServiceState) (account : EmailAccount)
    (opts : SyncOptions) (mailbox : List SyncFolder) (now : Nat) :
    (performSync s account opts mailbox now).cancelled
      = (folderLoopState s account opts mailbox now).isCancelled := by
  simp only [performSync, folderLoopState, initialRunState]
  split
  · rfl
  · simp [updStatus_isCancelled]

theorem folderLoopState_runCore (s : ServiceState) (account : EmailAccount)
    (opts : SyncOptions) (mailbox : List SyncFolder) (now : Nat) :
    runCore (folderLoopState s account opts mailbox now)
      = runFoldersObs account.id opts.batchSize opts.maxEmails (now : Int)
          (resolveFolders mailbox opts.folders) ⟨s.emails, 0, 0, false⟩ := by
  unfold folderLoopState initialRunState
  rw [runFolders_runCore, updStatus_runCore]
  rfl

/-- The default options of a scheduled or resumed run. -/
def exOpts2 : SyncOptions :=
  { batchSize := 50, maxEmails := 0, folders := none, resumeFrom := none }

/-- C2: the batch processor stores each (account, messageId) pair at most
once.  (1) When the stored key set has no duplicates, it still has none after
a batch (a new key is inserted only after the lookup found no existing
document).  (2) Over a batch all of whose messages are already stored, the
batch is a no-op: nothing is persisted and the success and failed counters
both stay 0 — skipped duplicates increment neither.  (3) The success counter
counts exactly the newly persisted messages: the store grows by precisely
`success` keys. -/
theorem processEmailBatch_dedup (store : List (String × String)) (aid : String)
    (emails : List RawEmail) (s : ServiceState) (account : EmailAccount)
    (opts : SyncOptions) (mailbox : List SyncFolder) (now : Nat) :
    (store.Nodup → (processEmailBatch store aid emails).1.Nodup) ∧
    ((∀ e ∈ emails, (aid, e.messageId) ∈ store) →
      processEmailBatch store aid emails = (store, 0, 0)) ∧
    (processEmailBatch store aid emails).1.length
      = store.length + (processEmailBatch store aid emails).2.1 ∧
    ((∀ f ∈ mailbox, ∀ msg ∈ f.msgs, (account.id, msg.messageId) ∈ s.emails) →
      (performSync s account opts mailbox now).state.emails = s.emails ∧
      (performSync s account opts mailbox now).totalProcessed = 0) := by
  refine ⟨fun hn => processFold_nodup aid emails store 0 0 hn,
    fun h => processFold_all_stored aid emails store 0 0 h, ?_, ?_⟩
  · have h := processFold_length aid emails store 0 0
    simpa [processEmailBatch] using h
  · intro hall
    have hobs := runFoldersObs_all_stored account.id opts.batchSize opts.maxEmails
      (now : Int) (resolveFolders mailbox opts.folders) ⟨s.emails, 0, 0, false⟩
      (fun f' hf' msg hm => by
        rcases resolveFolders_msgs mailbox opts.folders f' hf' msg hm with ⟨f, hf, hmf⟩
        exact hall f hf msg hmf)
    have hcore := folderLoopState_runCore s account opts mailbox now
    constructor
    · rw [performSync_state_emails, ← runCore_emails, hcore]
      exact hobs.1
    · rw [performSync_totalProcessed, ← runCore_tp, hcore]
      exact hobs.2

/-- Witness for C2: one stored message, a batch re-presenting it plus a fresh
one — the duplicate is skipped, the fresh one is stored once. -/
theorem processEmailBatch_dedup_witness :
    ([("a1", "m1")] : List (String × String)).Nodup ∧
    (processEmailBatch [("a1", "m1")] "a1"
      [{ messageId := "m1", fromHeader := none, sendingDomain := none, date := none,
         receivedDate := none, saveOk := true }]) = ([("a1", "m1")], 0, 0) ∧
    (processEmailBatch [("a1", "m1")] "a1"
      [{ messageId := "m1", fromHeader := none, sendingDomain := none, date := none,
         receivedDate := none, saveOk := true },
       { messageId := "m2", fromHeader := none, sendingDomain := none, date := none,
         receivedDate := none, saveOk := true }]).1.Nodup ∧
    (performSync exRun2.state exAccount exOpts2 exMailbox 14).state.emails
      = exRun2.state.emails ∧
    (performSync exRun2.state exAccount exOpts2 exMailbox 14).totalProcessed = 0 := by
  have h1 := processEmailBatch_dedup [("a1", "m1")] "a1"
    [{ messageId := "m1", fromHeader := none, sendingDomain := none, date := none,
       receivedDate := none, saveOk := true }]
    exRun2.state exAccount exOpts2 exMailbox 14
  have h2 := processEmailBatch_dedup [("a1", "m1")] "a1"
    [{ messageId := "m1", fromHeader := none, sendingDomain := none, date := none,
       receivedDate := none, saveOk := true },
     { messageId := "m2", fromHeader := none, sendingDomain := none, date := none,
       receivedDate := none, saveOk := true }]
    exRun2.state exAccount exOpts2 exMailbox 14
  refine ⟨by decide, h1.2.1 (by decide), h2.1 (by decide),
    (h1.2.2.2 (by decide)).1, (h1.2.2.2 (by decide)).2⟩

/-! ### C4 — stop from any state -/

/-- A RUNNING record with a resume cursor and a registered job handle. -/
def exC4Record : SyncStatus :=
  { SyncStatus.fresh with
    status := .RUNNING, lastProcessedMessageId := some "m5", startedAt := some 10 }

def exC4State : ServiceState :=
  { accounts := [exAccount],
    syncStatuses := [("a1", exC4Record)],
    syncJobs := [("a1", performSyncHandle)],
    emails := [] }

/-- C4 counterexample: `stop` on a RUNNING account with a registered job
handle persists the IDLE status and the completion time but then throws
(`syncJob.cancel` does not exist on the bare promise), and the resume cursor
is not dropped — the persisted record still carries `some "m5"`.  (A later
`start` nevertheless begins from scratch only because `start` itself nulls
the cursor.) -/
theorem stopSync_errors_and_keeps_cursor :
    (stopSync exC4State "a1" 99).2 = .error "syncJob.cancel is not a function" ∧
    (lookupKey (stopSync exC4State "a1" 99).1.syncStatuses "a1").map
        (fun st => (st.status, st.completedAt, st.lastProcessedMessageId))
      = some (.IDLE, some 99, some "m5") := by
  exact ⟨rfl, by decide⟩

theorem stopSync_accounts (s : ServiceState) (aid : String) (now : Nat) :
    (stopSync s aid now).1.accounts = s.accounts := by
  unfold stopSync
  cases hl : lookupKey s.syncStatuses aid with
  | none => rfl
  | some st =>
    cases hj : lookupKey s.syncJobs aid with
    | none => simp [hj]
    | some hdl =>
      cases hcc : callCancel hdl with
      | ok u => simp [hj, hcc]
      | error e => simp [hj, hcc]

/-- C4 amended: `stop` requires an existing progress record (otherwise it
raises NotFound).  When a record exists it persists status IDLE and a
completion timestamp while leaving the resume cursor in place; it returns
without error exactly when no job handle is registered (a registered bare
promise makes the subsequent `.cancel()` throw after the IDLE write); and a
later `start` begins from scratch because `start` itself resets the cursor
to null. -/
theorem stopSync_amended (s : ServiceState) (aid : String) (now now2 : Nat) :
    (lookupKey s.syncStatuses aid = none →
      stopSync s aid now = (s, .error "Sync status not found")) ∧
    (∀ st, lookupKey s.syncStatuses aid = some st →
      lookupKey (stopSync s aid now).1.syncStatuses aid
        = some { st with status := .IDLE, completedAt := some now } ∧
      (lookupKey s.syncJobs aid = none →
        (stopSync s aid now).2
          = .ok { st with status := .IDLE, completedAt := some now }) ∧
      (∀ acct, findAccount s aid = some acct →
        ∃ st1, (startSync (stopSync s aid now).1 aid now2).2 = .ok st1 ∧
          st1.lastProcessedMessageId = none ∧ st1.status = .RUNNING)) := by
  constructor
  · intro h
    simp [stopSync, h]
  · intro st h
    have hlook : lookupKey (stopSync s aid now).1.syncStatuses aid
        = some { st with status := .IDLE, completedAt := some now } := by
      unfold stopSync
      cases hl2 : lookupKey s.syncStatuses aid with
      | none => rw [h] at hl2; cases hl2
      | some st2 =>
        rw [h] at hl2
        cases hl2
        cases hj : lookupKey s.syncJobs aid with
        | none => simpa [hj] using lookupKey_setKey_self s.syncStatuses aid _
        | some hdl =>
          cases hcc : callCancel hdl with
          | ok u => simpa [hj, hcc] using lookupKey_setKey_self s.syncStatuses aid _
          | error e => simpa [hj, hcc] using lookupKey_setKey_self s.syncStatuses aid _
    refine ⟨hlook, ?_, ?_⟩
    · intro hj
      simp [stopSync, h, hj]
    · intro acct hacct
      have hacct' : findAccount (stopSync s aid now).1 aid = some acct := by
        unfold findAccount
        rw [stopSync_accounts]
        exact hacct
      refine ⟨{ st with
          status := .RUNNING, completedAt := some now, startedAt := some now2,
          currentFolder := none, lastProcessedMessageId := none,
          errorMessage := none }, ?_, rfl, rfl⟩
      unfold startSync
      rw [hacct', hlook]
      simp

/-- Witness state for C4: an IDLE record with a leftover cursor and no
registered job. -/
def exIdleRecord : SyncStatus :=
  { SyncStatus.fresh with
    lastProcessedMessageId := some "m5", completedAt := some 20 }

def exIdleState : ServiceState :=
  { accounts := [exAccount],
    syncStatuses := [("a1", exIdleRecord)],
    syncJobs := [], emails := [] }

/-- Witness for C4: `stop` on the already-IDLE record succeeds without error,
and the subsequent `start` runs from scratch (cursor null, status
RUNNING). -/
theorem stopSync_amended_witness :
    (stopSync exIdleState "a1" 30).2
      = .ok { exIdleRecord with status := .IDLE, completedAt := some 30 } ∧
    ∃ st1, (startSync (stopSync exIdleState "a1" 30).1 "a1" 31).2 = .ok st1 ∧
      st1.lastProcessedMessageId = none ∧ st1.status = .RUNNING := by
  have h := (stopSync_amended exIdleState "a1" 30 31).2 exIdleRecord (by decide)
  exact ⟨h.2.1 (by decide), h.2.2 exAccount (by decide)⟩

/-! ### C5 — fetch range of `getEmails` -/

theorem seqSlice_subset {α : Type} (msgs : List α) (limit offset : Nat) :
    seqSlice msgs limit offset ⊆ msgs := by
  intro m hm
  simp only [seqSlice] at hm
  split at hm
  · cases hm
  · exact (List.drop_subset _ _) ((List.take_subset _ _) hm)

/-- C5: `getEmails` opens the folder read-only and returns exactly the
(parsed) messages in the 1-based sequence range
`[max 1 (T − offset − limit + 1), T − offset]`: when the range is empty — in
particular whenever `offset ≥ T` — the result is the empty sequence rather
than an error, and otherwise the result lists precisely the messages at
those sequence positions, in order. -/
theorem getEmails_range (msgs : List ServerMessage) (limit offset : Nat) (now : Int) :
    getEmailsOpenReadOnly = true ∧
    (msgs.length ≤ offset → getEmails msgs limit offset now = []) ∧
    (seqStart msgs.length limit offset > seqEnd msgs.length offset →
      getEmails msgs limit offset now = []) ∧
    ((∀ m ∈ msgs, m.parseOk = true) →
      seqStart msgs.length limit offset ≤ seqEnd msgs.length offset →
      (getEmails msgs limit offset now).length
        = (seqEnd msgs.length offset - seqStart msgs.length limit offset + 1).toNat ∧
      ∀ k, k < (getEmails msgs limit offset now).length →
        (getEmails msgs limit offset now)[k]?
          = (msgs[(seqStart msgs.length limit offset).toNat - 1 + k]?).map
              (toRawEmail now)) := by
  have hs1 : (1 : Int) ≤ seqStart msgs.length limit offset := le_max_left _ _
  have hend : seqEnd msgs.length offset = (msgs.length : Int) - offset := rfl
  refine ⟨rfl, ?_, ?_, ?_⟩
  · intro hoff
    have hgt : seqStart msgs.length limit offset > seqEnd msgs.length offset := by
      rw [hend]
      have : ((msgs.length : Int) - offset) ≤ 0 := by omega
      omega
    simp [getEmails, seqSlice, if_pos hgt]
  · intro hgt
    simp [getEmails, seqSlice, if_pos hgt]
  · intro hp hle
    have hfilter : (seqSlice msgs limit offset).filter (·.parseOk)
        = seqSlice msgs limit offset :=
      List.filter_eq_self.mpr (fun m hm => hp m (seqSlice_subset msgs limit offset hm))
    have hslice : seqSlice msgs limit offset
        = (msgs.drop ((seqStart msgs.length limit offset).toNat - 1)).take
            (seqEnd msgs.length offset - seqStart msgs.length limit offset + 1).toNat := by
      simp only [seqSlice]
      rw [if_neg (not_lt.mpr hle)]
    have hlen : (seqSlice msgs limit offset).length
        = (seqEnd msgs.length offset - seqStart msgs.length limit offset + 1).toNat := by
      rw [hslice, List.length_take, List.length_drop]
      rw [min_eq_left]
      rw [hend] at hle ⊢
      omega
    constructor
    · simp only [getEmails, hfilter, List.length_map]
      exact hlen
    · intro k hk
      simp only [getEmails, hfilter, List.length_map] at hk ⊢
      rw [List.getElem?_map, hslice]
      rw [hslice, List.length_take, List.length_drop] at hk
      rw [List.getElem?_take, if_pos (by omega), List.getElem?_drop]

/-- Witness for C5: a three-message folder fetched with limit 2 and offset 0
yields exactly the two newest messages (sequence numbers 2 and 3), and any
offset at or beyond the total yields the empty list. -/
def exMsgs : List ServerMessage :=
  [{ messageId := "m1", fromHeader := none, date := none, parseOk := true, saveOk := true },
   { messageId := "m2", fromHeader := none, date := none, parseOk := true, saveOk := true },
   { messageId := "m3", fromHeader := none, date := none, parseOk := true, saveOk := true }]

theorem getEmails_range_witness :
    getEmails exMsgs 2 3 7 = [] ∧
    (getEmails exMsgs 2 0 7).length = 2 ∧
    (getEmails exMsgs 2 0 7)[0]? = (exMsgs[1]?).map (toRawEmail 7) ∧
    (getEmails exMsgs 2 0 7)[1]? = (exMsgs[2]?).map (toRawEmail 7) := by
  have h0 := getEmails_range exMsgs 2 3 7
  have h1 := getEmails_range exMsgs 2 0 7
  refine ⟨h0.2.1 (by decide), ?_, ?_, ?_⟩
  · exact (h1.2.2.2 (by decide) (by decide)).1
  · exact (h1.2.2.2 (by decide) (by decide)).2 0 (by
      rw [(h1.2.2.2 (by decide) (by decide)).1]; decide)
  · exact (h1.2.2.2 (by decide) (by decide)).2 1 (by
      rw [(h1.2.2.2 (by decide) (by decide)).1]; decide)

/-! ### C6 — the analyzer never throws -/

/-- C6: `analyzeEmail` is total over the batch: either its try body succeeds
and the computed analysis is returned, or the body fails and the
all-unknown/false analysis (sending domain null, ESP type and name
"Unknown", sending server null, all probe flags false, time delta and
certificate details null) is returned instead of the failure propagating. -/
theorem analyzeEmail_never_throws (net : Network) (e : RawEmail) :
    defaultAnalysis
      = { sendingDomain := none, espType := "Unknown", espName := "Unknown",
          sendingServer := none, isOpenRelay := false, supportsTLS := false,
          hasValidCertificate := false, timeDelta := none,
          certificateDetails := none } ∧
    ((∃ a, analyzeEmailBody net e = .ok a ∧ analyzeEmail net e = a) ∨
     (∃ msg, analyzeEmailBody net e = .error msg ∧
        analyzeEmail net e = defaultAnalysis)) := by
  refine ⟨rfl, ?_⟩
  cases h : analyzeEmailBody net e with
  | ok a => exact Or.inl ⟨a, rfl, by simp [analyzeEmail, h]⟩
  | error msg => exact Or.inr ⟨msg, rfl, by simp [analyzeEmail, h]⟩

/-! ### C7 — the `mail.<domain>` placeholder and the probe guard -/

/-- A network environment whose probes would report positively — so a `false`
probe flag in a result proves the probe was never run. -/
def exNet : Network :=
  { tls := fun _ =>
      { supportsTLS := true, hasValidCertificate := true, certificateDetails := none },
    openRelay := fun _ => true }

/-- A raw message as the fetcher produces it: a parseable `from` header and no
`sendingDomain` property. -/
def exC7Email : RawEmail :=
  { messageId := "m1", fromHeader := some "jane@example.com", sendingDomain := none,
    date := none, receivedDate := none, saveOk := true }

/-- C7 failing input: the analyzer extracts sending domain "example.com" from
the `from` header, yet `extractSendingServer` reads the raw record's absent
`sendingDomain` property — not the extracted domain — so the sending server
is null and neither probe runs (the flags stay false although the network
would answer positively).  Raw records built by `getEmails` never carry the
property (third-to-last conjunct), and the placeholder `mail.<domain>` fires
only when the raw record itself carries a domain (last conjunct). -/
theorem extractSendingServer_ignores_extracted_domain :
    (analyzeEmail exNet exC7Email).sendingDomain = some "example.com" ∧
    (analyzeEmail exNet exC7Email).sendingServer = none ∧
    (analyzeEmail exNet exC7Email).supportsTLS = false ∧
    (analyzeEmail exNet exC7Email).isOpenRelay = false ∧
    ((getEmails exMsgs 3 0 7).map (·.sendingDomain)) = [none, none, none] ∧
    extractSendingServer { exC7Email with sendingDomain := some "example.com" }
      = some "mail.example.com" := by
  exact ⟨by decide, by decide, by decide, by decide, by decide, by decide⟩

/-! ### C8 — the pool cap is configured but never enforced -/

def exPool0 : ImapPoolState := { maxConnections := 1, connectionPool := [] }

def exPool1 : ImapPoolState := (createConnection exPool0 "a@x.com" "h1" true).1

def exPool2 : ImapPoolState := (createConnection exPool1 "b@y.com" "h2" true).1

/-- C8 failing input: with the configured maximum at 1, two successful
`createConnection` calls for two distinct accounts both cache their session —
the pool grows to 2 entries, above `maxConnections`, and neither call waited
or failed: no code path consults `maxConnections`. -/
theorem connectionPool_exceeds_maxConnections :
    exPool2.maxConnections = 1 ∧
    (createConnection exPool0 "a@x.com" "h1" true).2 = .ok () ∧
    (createConnection exPool1 "b@y.com" "h2" true).2 = .ok () ∧
    exPool2.connectionPool.length = 2 ∧
    ¬ exPool2.connectionPool.length ≤ exPool2.maxConnections := by
  exact ⟨rfl, rfl, rfl, by decide, by decide⟩

/-! ### C9 — pause persists PAUSED, then throws; the run is uncancellable -/

theorem performSync_totalFailed (s : ServiceState) (account : EmailAccount)
    (opts : SyncOptions) (mailbox : List SyncFolder) (now : Nat) :
    (performSync s account opts mailbox now).totalFailed
      = (folderLoopState s account opts mailbox now).totalFailed := by
  simp only [performSync, folderLoopState, initialRunState]
  split
  · rfl
  · simp [updStatus_totalFailed]

theorem runBatchesObs_m0 (aid : String) (b : Nat) (emails : List RawEmail)
    (starts : List Nat) :
    ∀ c : RunObs, c.cancelled = false →
      (runBatchesObs aid b 0 emails starts c).cancelled = false := by
  induction starts with
  | nil => exact fun c hc => hc
  | cons i rest ih =>
    intro c hc
    simp only [runBatchesObs, hc, Bool.false_eq_true, if_false]
    rw [if_neg (by simp)]
    exact ih _ rfl

theorem runFolderObs_m0 (aid : String) (b : Nat) (now : Int) (f : SyncFolder)
    (c : RunObs) (hc : c.cancelled = false) :
    (runFolderObs aid b 0 now f c).cancelled = false := by
  unfold runFolderObs
  split
  · exact runBatchesObs_m0 _ _ _ _ c hc
  · exact hc

theorem runFoldersObs_m0 (aid : String) (b : Nat) (now : Int)
    (folders : List SyncFolder) :
    ∀ c : RunObs, c.cancelled = false →
      (runFoldersObs aid b 0 now folders c).cancelled = false := by
  induction folders with
  | nil => exact fun c hc => hc
  | cons f rest ih =>
    intro c hc
    simp only [runFoldersObs, hc, Bool.false_eq_true, if_false]
    exact ih _ (runFolderObs_m0 aid b now f c hc)

/-- Cancellation of a `performSync` run arises only from the `maxEmails`
cap: neither `pause` nor `stop` can reach the closure-local `isCancelled`
flag, so a cancelled run implies a positive cap that the processed count
reached. -/
theorem performSync_cancel_only_by_cap (s0 : ServiceState) (account : EmailAccount)
    (opts : SyncOptions) (mailbox : List SyncFolder) (now : Nat)
    (hc : (performSync s0 account opts mailbox now).cancelled = true) :
    0 < opts.maxEmails ∧
    opts.maxEmails ≤ (performSync s0 account opts mailbox now).totalProcessed := by
  rw [performSync_cancelled_eq, ← runCore_cancelled, folderLoopState_runCore] at hc
  have hm : 0 < opts.maxEmails := by
    rcases Nat.eq_zero_or_pos opts.maxEmails with h0 | hpos
    · rw [h0] at hc
      rw [runFoldersObs_m0 account.id opts.batchSize (now : Int)
        (resolveFolders mailbox opts.folders) ⟨s0.emails, 0, 0, false⟩ rfl] at hc
      cases hc
    · exact hpos
  refine ⟨hm, ?_⟩
  rw [performSync_totalProcessed, ← runCore_tp, folderLoopState_runCore]
  exact (runFoldersObs_cancel_iff_cap account.id opts.batchSize opts.maxEmails
    (now : Int) (resolveFolders mailbox opts.folders) ⟨s0.emails, 0, 0, false⟩
    hm rfl hm).mp hc

/-- C9: `pause` on a RUNNING account with a registered job handle first
persists the PAUSED status, then throws — the registered handle is the bare
promise returned by `performSync`, which has no `cancel` method — so the
status change survives the error, the registry entry is not even removed,
and nothing else changes.  The in-flight background run is unaffected: its
observable behaviour (processed/failed counters, the cancellation flag, the
stored messages) is identical from the paused state and from the original
state, and its internal cancellation flag can only ever be set by the
`maxEmails` cap, never by `pause` or `stop`. -/
theorem pauseSync_partial_write_and_uncancellable (s : ServiceState) (aid : String)
    (st : SyncStatus)
    (hst : lookupKey s.syncStatuses aid = some st)
    (hrun : st.status = .RUNNING)
    (hjob : lookupKey s.syncJobs aid = some performSyncHandle) :
    (pauseSync s aid).2 = .error "syncJob.cancel is not a function" ∧
    lookupKey (pauseSync s aid).1.syncStatuses aid = some { st with status := .PAUSED } ∧
    (pauseSync s aid).1.syncJobs = s.syncJobs ∧
    (pauseSync s aid).1.emails = s.emails ∧
    (pauseSync s aid).1.accounts = s.accounts ∧
    (∀ account opts mailbox now,
      (performSync (pauseSync s aid).1 account opts mailbox now).totalProcessed
        = (performSync s account opts mailbox now).totalProcessed ∧
      (performSync (pauseSync s aid).1 account opts mailbox now).totalFailed
        = (performSync s account opts mailbox now).totalFailed ∧
      (performSync (pauseSync s aid).1 account opts mailbox now).cancelled
        = (performSync s account opts mailbox now).cancelled ∧
      (performSync (pauseSync s aid).1 account opts mailbox now).state.emails
        = (performSync s account opts mailbox now).state.emails) ∧
    (∀ s0 account opts mailbox now,
      (performSync (s0 : ServiceState) account opts mailbox now).cancelled = true →
      0 < opts.maxEmails ∧
      opts.maxEmails ≤ (performSync s0 account opts mailbox now).totalProcessed) := by
  have hpause : pauseSync s aid
      = ({ s with syncStatuses := setKey s.syncStatuses aid { st with status := .PAUSED } },
         .error "syncJob.cancel is not a function") := by
    simp [pauseSync, hst, hrun, hjob, callCancel, performSyncHandle]
  have hemails : (pauseSync s aid).1.emails = s.emails := by rw [hpause]
  refine ⟨by rw [hpause], ?_, by rw [hpause], hemails, by rw [hpause], ?_, ?_⟩
  · rw [hpause]
    exact lookupKey_setKey_self _ _ _
  · intro account opts mailbox now
    refine ⟨?_, ?_, ?_, ?_⟩
    · rw [performSync_totalProcessed, performSync_totalProcessed, ← runCore_tp,
        ← runCore_tp, folderLoopState_runCore, folderLoopState_runCore, hemails]
    · rw [performSync_totalFailed, performSync_totalFailed, ← runCore_tf,
        ← runCore_tf, folderLoopState_runCore, folderLoopState_runCore, hemails]
    · rw [performSync_cancelled_eq, performSync_cancelled_eq, ← runCore_cancelled,
        ← runCore_cancelled, folderLoopState_runCore, folderLoopState_runCore, hemails]
    · rw [performSync_state_emails, performSync_state_emails, ← runCore_emails,
        ← runCore_emails, folderLoopState_runCore, folderLoopState_runCore, hemails]
  · exact performSync_cancel_only_by_cap

/-- Witness for C9 at the concrete RUNNING state with a registered handle. -/
theorem pauseSync_partial_write_witness :
    (pauseSync exC4State "a1").2 = .error "syncJob.cancel is not a function" ∧
    lookupKey (pauseSync exC4State "a1").1.syncStatuses "a1"
      = some { exC4Record with status := .PAUSED } ∧
    (pauseSync exC4State "a1").1.syncJobs = exC4State.syncJobs := by
  have h := pauseSync_partial_write_and_uncancellable exC4State "a1" exC4Record
    (by decide) (by decide) (by decide)
  exact ⟨h.1, h.2.1, h.2.2.1⟩

/-! ### C10 — a capped run leaves the record RUNNING -/

theorem folderLoopState_db_syncJobs (s : ServiceState) (account : EmailAccount)
    (opts : SyncOptions) (mailbox : List SyncFolder) (now : Nat) :
    (folderLoopState s account opts mailbox now).db.syncJobs = s.syncJobs := by
  unfold folderLoopState initialRunState
  rw [runFolders_db_syncJobs, updStatus_db_syncJobs]

theorem folderLoopState_db_accounts (s : ServiceState) (account : EmailAccount)
    (opts : SyncOptions) (mailbox : List SyncFolder) (now : Nat) :
    (folderLoopState s account opts mailbox now).db.accounts = s.accounts := by
  unfold folderLoopState initialRunState
  rw [runFolders_db_accounts, updStatus_db_accounts]

theorem folderLoopState_statusProj (s : ServiceState) (account : EmailAccount)
    (opts : SyncOptions) (mailbox : List SyncFolder) (now : Nat) :
    statusProj account.id (folderLoopState s account opts mailbox now)
      = (lookupKey s.syncStatuses account.id).map (fun st => (st.status, st.completedAt)) := by
  unfold folderLoopState initialRunState
  rw [runFolders_statusProj]
  rw [updStatus_statusProj]
  · rfl
  · intro st
    exact ⟨rfl, rfl⟩

theorem performSync_state_syncJobs (s : ServiceState) (account : EmailAccount)
    (opts : SyncOptions) (mailbox : List SyncFolder) (now : Nat) :
    (performSync s account opts mailbox now).state.syncJobs
      = eraseKey (folderLoopState s account opts mailbox now).db.syncJobs account.id := by
  simp only [performSync, folderLoopState, initialRunState]
  split
  · rfl
  · simp [updStatus_db_syncJobs]

theorem performSync_state_statuses_of_cancelled (s : ServiceState) (account : EmailAccount)
    (opts : SyncOptions) (mailbox : List SyncFolder) (now : Nat)
    (hc : (performSync s account opts mailbox now).cancelled = true) :
    (performSync s account opts mailbox now).state.syncStatuses
      = (folderLoopState s account opts mailbox now).db.syncStatuses := by
  rw [performSync_cancelled_eq] at hc
  simp only [folderLoopState, initialRunState] at hc
  simp only [performSync]
  split
  · rfl
  · next hnc => exact absurd hc hnc

theorem performSync_state_accounts_of_cancelled (s : ServiceState) (account : EmailAccount)
    (opts : SyncOptions) (mailbox : List SyncFolder) (now : Nat)
    (hc : (performSync s account opts mailbox now).cancelled = true) :
    (performSync s account opts mailbox now).state.accounts = s.accounts := by
  rw [performSync_cancelled_eq] at hc
  simp only [folderLoopState, initialRunState] at hc
  have hacc := folderLoopState_db_accounts s account opts mailbox now
  simp only [folderLoopState, initialRunState] at hacc
  simp only [performSync]
  split
  · exact hacc
  · next hnc => exact absurd hc hnc

theorem pauseSync_accounts (s : ServiceState) (aid : String) :
    (pauseSync s aid).1.accounts = s.accounts := by
  unfold pauseSync
  cases hl : lookupKey s.syncStatuses aid with
  | none => rfl
  | some st =>
    by_cases hr : st.status ≠ SyncState.RUNNING
    · simp [hr]
    · simp only [hr, if_false]
      cases hj : lookupKey s.syncJobs aid with
      | none => simp [hj]
      | some hdl =>
        cases hcc : callCancel hdl with
        | ok u => simp [hj, hcc]
        | error e => simp [hj, hcc]

/-- C10: a run started with a positive `maxEmails` whose processed count
reaches the cap exits via the internal cancelled flag; the completion block
is skipped, so the progress record stays RUNNING with its completion
timestamp unchanged and no account write-back happens; every subsequent
`start` for the account is rejected as already running; and calling `stop`
(or `pause`), which succeeds because the `finally` clause deregistered the
job handle, puts the record in a non-RUNNING state after which `start`
succeeds again. -/
theorem performSync_cap_leaves_running (s : ServiceState) (account : EmailAccount)
    (opts : SyncOptions) (mailbox : List SyncFolder) (now : Nat) (st : SyncStatus)
    (acct : EmailAccount)
    (hm : 0 < opts.maxEmails)
    (hcap : opts.maxEmails ≤ (performSync s account opts mailbox now).totalProcessed)
    (hst : lookupKey s.syncStatuses account.id = some st)
    (hrun : st.status = .RUNNING)
    (hacct : findAccount s account.id = some acct)
    (hjobs : (s.syncJobs.map Prod.fst).Nodup) :
    (performSync s account opts mailbox now).cancelled = true ∧
    (∃ st2, lookupKey (performSync s account opts mailbox now).state.syncStatuses
        account.id = some st2 ∧ st2.status = .RUNNING ∧ st2.completedAt = st.completedAt) ∧
    (performSync s account opts mailbox now).state.accounts = s.accounts ∧
    (∀ now2, (startSync (performSync s account opts mailbox now).state account.id now2).2
        = .error "Synchronization is already running for this account") ∧
    (∀ now2 now3, ∃ stStop,
        (stopSync (performSync s account opts mailbox now).state account.id now2).2
          = .ok stStop ∧
        stStop.status = .IDLE ∧
        ∃ stNew, (startSync
            (stopSync (performSync s account opts mailbox now).state account.id now2).1
            account.id now3).2 = .ok stNew ∧ stNew.status = .RUNNING) ∧
    (∀ now3, ∃ stPause,
        (pauseSync (performSync s account opts mailbox now).state account.id).2
          = .ok stPause ∧
        stPause.status = .PAUSED ∧
        ∃ stNew2, (startSync
            (pauseSync (performSync s account opts mailbox now).state account.id).1
            account.id now3).2 = .ok stNew2 ∧ stNew2.status = .RUNNING) := by
  have hcan : (performSync s account opts mailbox now).cancelled = true := by
    rw [performSync_cancelled_eq, ← runCore_cancelled, folderLoopState_runCore]
    refine (runFoldersObs_cancel_iff_cap account.id opts.batchSize opts.maxEmails
      (now : Int) (resolveFolders mailbox opts.folders) ⟨s.emails, 0, 0, false⟩
      hm rfl hm).mpr ?_
    rw [performSync_totalProcessed, ← runCore_tp, folderLoopState_runCore] at hcap
    exact hcap
  have hproj := folderLoopState_statusProj s account opts mailbox now
  rw [hst] at hproj
  obtain ⟨st2, hlookF, hprojeq⟩ := Option.map_eq_some'.mp hproj
  have hs2 : st2.status = st.status := congrArg Prod.fst hprojeq
  have hc2 : st2.completedAt = st.completedAt := congrArg Prod.snd hprojeq
  have hstat2 : st2.status = .RUNNING := hs2.trans hrun
  have hstats := performSync_state_statuses_of_cancelled s account opts mailbox now hcan
  have hlookRes : lookupKey (performSync s account opts mailbox now).state.syncStatuses
      account.id = some st2 := by
    rw [hstats]
    exact hlookF
  have haccounts := performSync_state_accounts_of_cancelled s account opts mailbox now hcan
  have hjobsNone : lookupKey (performSync s account opts mailbox now).state.syncJobs
      account.id = none := by
    rw [performSync_state_syncJobs, folderLoopState_db_syncJobs]
    exact lookupKey_eraseKey_self _ _ hjobs
  have hacctRes : findAccount (performSync s account opts mailbox now).state account.id
      = some acct := by
    unfold findAccount
    rw [haccounts]
    exact hacct
  refine ⟨hcan, ⟨st2, hlookRes, hstat2, hc2⟩, haccounts, ?_, ?_, ?_⟩
  · intro now2
    unfold startSync
    rw [hacctRes, hlookRes]
    simp [hstat2]
  · intro now2 now3
    have hstop : (stopSync (performSync s account opts mailbox now).state account.id
        now2).2 = .ok { st2 with status := .IDLE, completedAt := some now2 } := by
      simp [stopSync, hlookRes, hjobsNone]
    have hlook2 : lookupKey (stopSync (performSync s account opts mailbox now).state
        account.id now2).1.syncStatuses account.id
        = some { st2 with status := .IDLE, completedAt := some now2 } := by
      simp [stopSync, hlookRes, hjobsNone, lookupKey_setKey_self]
    have hacc2 : findAccount (stopSync (performSync s account opts mailbox now).state
        account.id now2).1 account.id = some acct := by
      unfold findAccount
      rw [stopSync_accounts, haccounts]
      exact hacct
    refine ⟨_, hstop, rfl, ?_⟩
    have hres2 : (startSync (stopSync (performSync s account opts mailbox now).state
        account.id now2).1 account.id now3).2
        = .ok { { st2 with status := SyncState.IDLE, completedAt := some now2 } with
                status := .RUNNING, startedAt := some now3, currentFolder := none,
                lastProcessedMessageId := none, errorMessage := none } := by
      unfold startSync
      rw [hacc2, hlook2]
      simp
    exact ⟨_, hres2, rfl⟩
  · intro now3
    have hpause : (pauseSync (performSync s account opts mailbox now).state account.id).2
        = .ok { st2 with status := .PAUSED } := by
      simp [pauseSync, hlookRes, hstat2, hjobsNone]
    have hlook3 : lookupKey (pauseSync (performSync s account opts mailbox now).state
        account.id).1.syncStatuses account.id = some { st2 with status := .PAUSED } := by
      simp [pauseSync, hlookRes, hstat2, hjobsNone, lookupKey_setKey_self]
    have hacc3 : findAccount (pauseSync (performSync s account opts mailbox now).state
        account.id).1 account.id = some acct := by
      unfold findAccount
      rw [pauseSync_accounts, haccounts]
      exact hacct
    refine ⟨_, hpause, rfl, ?_⟩
    have hres3 : (startSync (pauseSync (performSync s account opts mailbox now).state
        account.id).1 account.id now3).2
        = .ok { { st2 with status := SyncState.PAUSED } with
                status := .RUNNING, startedAt := some now3, currentFolder := none,
                lastProcessedMessageId := none, errorMessage := none } := by
      unfold startSync
      rw [hacc3, hlook3]
      simp
    exact ⟨_, hres3, rfl⟩

/-- The record `startSync` creates on a fresh account. -/
def exStartRecord : SyncStatus :=
  { SyncStatus.fresh with status := .RUNNING, startedAt := some 10 }

/-- Witness for C10 at the concrete capped run `exRun1` (maxEmails 1, two
messages upstream). -/
theorem performSync_cap_leaves_running_witness :
    exRun1.cancelled = true ∧
    (startSync exRun1.state "a1" 20).2
      = .error "Synchronization is already running for this account" ∧
    ∃ stStop, (stopSync exRun1.state "a1" 21).2 = .ok stStop ∧ stStop.status = .IDLE := by
  have h := performSync_cap_leaves_running exAfterStart exAccount
    { batchSize := 1, maxEmails := 1, folders := none, resumeFrom := none }
    exMailbox 11 exStartRecord exAccount
    (by decide) (by decide) (by decide) (by decide) (by decide) (by decide)
  refine ⟨h.1, h.2.2.2.1 20, ?_⟩
  obtain ⟨stStop, h1, h2, _⟩ := h.2.2.2.2.1 21 22
  exact ⟨stStop, h1, h2⟩

end LucidGrowth
